import Mathlib

/-!
CandyMare: `CIwGameSlotArray` (IwGameUtil.h)

A shallow embedding of the slot array template `CIwGameSlotArray<T>` of
`src/Android/ad/h/IwGameUtil.h` and theorems about it.

Modelling conventions

* `T` is a pointer type in the source (slots are compared with and assigned `NULL`).
  A value of `T` is an `Option α`: `none` is `NULL`, `some a` is a non-null element.
* `int` fields and arguments (`Growth`, `Size`, `LastFreedSlot`, `index`) are `Int`.  The
  arithmetic of the operations is done in `Int`; the one place where the range of `int`
  decides what the code does is the allocation `new T[Size + growth]` of `grow`, which throws
  when the length does not fit: `grow_checked` is `grow` with that allocation, `INT_MAX` the
  bound.
* The heap block `Elements` is a `List (Option α)`; its length is the allocated length,
  kept apart from the field `Size` exactly as in the source.
* C++ gives no meaning to a load or store outside the allocated block, and the source does
  not check the index of the store on the hint fast path of `add`.  `store` returns the block
  unchanged for such an index, which is what the slots of the block show right after the
  call; it says nothing about what the program does later.  `add_in_block` tells whether the
  store of `add` is inside the block, and the theorems that speak about every reachable state
  are stated for the constructor arguments for which every store is (`hintOk_run`,
  `add_store_spec`).
-/

set_option linter.unusedSectionVars false

namespace IwGame

/-- The data members of `CIwGameSlotArray<T>` (source lines 249-257). -/
structure CIwGameSlotArray (α : Type) where
  /-- Number of elements to grow array when we run out of space. -/
  Growth : Int
  /-- Array elements. -/
  Elements : List (Option α)
  /-- Max size of array. -/
  Size : Int
  /-- Slot that was last freed. -/
  LastFreedSlot : Int
deriving DecidableEq, Repr

/-- The store `block[i] = v` for an `int` index `i`.  For an index outside the block, where C++
leaves the store undefined, the block is returned as it is. -/
def store {α : Type} (block : List (Option α)) (i : Int) (v : Option α) : List (Option α) :=
  if 0 ≤ i then block.set i.toNat v else block

/-- The load `block[i]` for an `int` index `i`. -/
def load {α : Type} (block : List (Option α)) (i : Int) : Option α :=
  if 0 ≤ i then block.getD i.toNat none else none

/-- The early-exit loop `for (t = lo; t < lo + k; t++) if (p t) { ...; return/break; }`:
the first `t` in `[lo, lo + k)` at which the test succeeds, if any. -/
def scan (p : Nat → Bool) : Nat → Nat → Option Nat
  | _, 0 => none
  | lo, k + 1 => if p lo then some lo else scan p (lo + 1) k

/-- The counting loop of `count()` over the first `n` slots of a block:
`for (t = 0; t < n; t++) if (block[t] != NULL) count++`. -/
def countLoop {α : Type} [DecidableEq α] (block : List (Option α)) (n : Nat) : Int :=
  (List.range n).foldl (fun c t => if block.getD t none ≠ none then c + 1 else c) 0

namespace CIwGameSlotArray

variable {α : Type} [DecidableEq α]

/-- `CIwGameSlotArray(int size, int growth)` (lines 269-275); `new T[Size]()` value-initialises
every slot to `NULL`. -/
def new (size growth : Int) : CIwGameSlotArray α :=
  { LastFreedSlot := 0
    Growth := growth
    Size := size
    Elements := List.replicate size.toNat none }

/-- `getSize()` (line 252), the capacity. -/
def getSize (s : CIwGameSlotArray α) : Int := s.Size

/-- `count()` (lines 282-291). -/
def count (s : CIwGameSlotArray α) : Int :=
  countLoop s.Elements s.Size.toNat

/-- `grow(int growth)` (lines 351-361). -/
def grow (s : CIwGameSlotArray α) (growth : Int) : CIwGameSlotArray α :=
  let elements0 : List (Option α) := List.replicate (s.Size + growth).toNat none
  let elements1 := (List.range s.Size.toNat).foldl
    (fun e t => e.set t (s.Elements.getD t none)) elements0
  let elements2 := (List.range growth.toNat).foldl
    (fun e (t : Nat) => store e ((t : Int) + s.Size) none) elements1
  { s with Elements := elements2, Size := s.Size + growth }

/-- `add(T element)` (lines 292-321); the `Bool` is the return value. -/
def add (s : CIwGameSlotArray α) (element : Option α) : Bool × CIwGameSlotArray α :=
  if s.LastFreedSlot ≥ 0 then
    (true, { s with Elements := store s.Elements s.LastFreedSlot element, LastFreedSlot := -1 })
  else
    match scan (fun t => decide (s.Elements.getD t none = none)) 0 s.Size.toNat with
    | some t => (true, { s with Elements := s.Elements.set t element })
    | none =>
      if s.Growth = 0 then (false, s)
      else
        -- the loop ran to completion, so `t` is the loop bound
        let t : Int := (s.Size.toNat : Int)
        let g := s.grow s.Growth
        (true, { g with Elements := store g.Elements t element, LastFreedSlot := t + 1 })

/-- `remove(T element)` (lines 323-334), removal by value. -/
def remove (s : CIwGameSlotArray α) (element : Option α) : CIwGameSlotArray α :=
  match scan (fun t => decide (s.Elements.getD t none = element)) 0 s.Size.toNat with
  | some t => { s with Elements := s.Elements.set t none, LastFreedSlot := (t : Int) }
  | none => s

/-- `remove(int index)` (lines 336-342), removal by index. -/
def remove_index (s : CIwGameSlotArray α) (index : Int) : CIwGameSlotArray α :=
  if index < 0 ∨ index ≥ s.Size then s
  else { s with Elements := store s.Elements index none, LastFreedSlot := index }

/-- `element_at(int index)` (lines 344-349). -/
def element_at (s : CIwGameSlotArray α) (index : Int) : Option α :=
  if index < 0 ∨ index ≥ s.Size then none
  else load s.Elements index

/-- `clear()` (lines 363-368). -/
def clear (s : CIwGameSlotArray α) : CIwGameSlotArray α :=
  { s with
    Elements := (List.range s.Size.toNat).foldl (fun e t => e.set t none) s.Elements
    LastFreedSlot := 0 }

end CIwGameSlotArray

/-- One call on a slot array made by a client. -/
inductive Op (α : Type) where
  | add (element : Option α)
  | remove (element : Option α)
  | remove_index (index : Int)
  | clear
deriving DecidableEq, Repr

variable {α : Type} [DecidableEq α]

/-- The state after one client call (the return value of `add` is dropped). -/
def step (s : CIwGameSlotArray α) : Op α → CIwGameSlotArray α
  | .add x => (s.add x).2
  | .remove x => s.remove x
  | .remove_index i => s.remove_index i
  | .clear => s.clear

/-- The state after a sequence of client calls. -/
def run (s : CIwGameSlotArray α) (ops : List (Op α)) : CIwGameSlotArray α :=
  ops.foldl step s

/-- The reuse hint of a state is sound: `LastFreedSlot` is `-1`, or it is an index inside
`[0, Size)` whose slot is free. -/
def HintOk (s : CIwGameSlotArray α) : Prop :=
  s.LastFreedSlot = -1 ∨
    (0 ≤ s.LastFreedSlot ∧ s.LastFreedSlot < s.Size ∧ load s.Elements s.LastFreedSlot = none)

instance (s : CIwGameSlotArray α) : Decidable (HintOk s) := by
  unfold HintOk; infer_instance

/-- The block is as long as `Size` says, sizes are not negative, and a hint that points
inside `[0, Size)` points at a free slot. -/
def Inv (s : CIwGameSlotArray α) : Prop :=
  0 ≤ s.Size ∧ s.Elements.length = s.Size.toNat ∧ 0 ≤ s.Growth ∧
    (0 ≤ s.LastFreedSlot → s.LastFreedSlot < s.Size → load s.Elements s.LastFreedSlot = none)

/-- The one store `block[k] = element` that `add` executes, as the pair of the block stored
into and the index `k`: `Elements[LastFreedSlot]` on the hint fast path (line 296),
`Elements[t]` at the free slot the scan found (line 306), `Elements[t]` of the grown block with
`t` the old loop bound (lines 316-317); `none` when `add` returns `false` without storing
(line 313). -/
def add_store (s : CIwGameSlotArray α) : Option (List (Option α) × Int) :=
  if s.LastFreedSlot ≥ 0 then some (s.Elements, s.LastFreedSlot)
  else
    match scan (fun t => decide (s.Elements.getD t none = none)) 0 s.Size.toNat with
    | some t => some (s.Elements, (t : Int))
    | none =>
      if s.Growth = 0 then none
      else some ((s.grow s.Growth).Elements, (s.Size.toNat : Int))

/-- The largest `int`. -/
def INT_MAX : Int := 2147483647

/-- `grow(int growth)` (lines 351-361) together with its allocation.  `none` stands for a call
that does not complete: `new T[Size + growth]()` throws when the length is not in
`[0, INT_MAX]`, and with a negative `Size` or `growth` the loops would store outside the new
block.  Otherwise the call completes with the state `grow` computes (running out of memory is
not modelled). -/
def CIwGameSlotArray.grow_checked (s : CIwGameSlotArray α) (growth : Int) :
    Option (CIwGameSlotArray α) :=
  if 0 ≤ s.Size ∧ 0 ≤ growth ∧ s.Size + growth ≤ INT_MAX then some (s.grow growth) else none

/-- The data members of `CIwGameTimer` (lines 144-150); the `uint64` members are naturals
below `2^64`. -/
structure CIwGameTimer where
  /-- True if timer started. -/
  Started : Bool
  /-- Time that the timer was set (milliseconds). -/
  LastTime : Nat
  /-- Duration of timer in milliseconds. -/
  Duration : Nat
  /-- Auto reset the timer when it times out. -/
  AutoReset : Bool
deriving DecidableEq, Repr

/-- Subtraction of `uint64` values, which wraps around modulo `2^64`. -/
def sub64 (a b : Nat) : Nat := (a % 2 ^ 64 + 2 ^ 64 - b % 2 ^ 64) % 2 ^ 64

namespace CIwGameTimer

/-- `GetElapsedTime()` (lines 202-205); `now` is what `s3eTimerGetMs()` returns. -/
def GetElapsedTime (t : CIwGameTimer) (now : Nat) : Nat := sub64 now t.LastTime

/-- `Start()` (lines 210-214); `now` is what `s3eTimerGetMs()` returns. -/
def Start (t : CIwGameTimer) (now : Nat) : CIwGameTimer :=
  { t with LastTime := now % 2 ^ 64, Started := true }

/-- `Stop()` (line 215). -/
def Stop (t : CIwGameTimer) : CIwGameTimer := { t with Started := false }

/-- `setDuration(millseconds_duration, start)` (lines 152-157). -/
def setDuration (t : CIwGameTimer) (millseconds_duration : Nat) (start : Bool) (now : Nat) :
    CIwGameTimer :=
  if start then
    Start { t with Duration := millseconds_duration % 2 ^ 64 } now
  else { t with Duration := millseconds_duration % 2 ^ 64 }

/-- `setAutoReset(auto_reset)` (line 159). -/
def setAutoReset (t : CIwGameTimer) (auto_reset : Bool) : CIwGameTimer :=
  { t with AutoReset := auto_reset }

/-- `Reset()` (line 209): `setDuration(Duration)` with the default `start = true`. -/
def Reset (t : CIwGameTimer) (now : Nat) : CIwGameTimer := t.setDuration t.Duration true now

/-- `HasTimedOut()` (lines 177-201).  `now` is the clock reading taken by `GetElapsedTime()`,
`now2` the one taken by the auto-reset branch; the `Bool` is the return value. -/
def HasTimedOut (t : CIwGameTimer) (now now2 : Nat) : Bool × CIwGameTimer :=
  if !t.Started then (false, t)
  else if t.Duration = 0 then (false, t)
  else
    let time_diff := t.GetElapsedTime now
    if time_diff > t.Duration then
      if t.AutoReset then (true, { t with LastTime := now2 % 2 ^ 64 })
      else (true, { t with Started := false })
    else (false, t)

end CIwGameTimer

/-- One call on a timer made by a client, with the clock readings the call takes. -/
inductive TimerOp where
  | HasTimedOut (now now2 : Nat)
  | Start (now : Nat)
  | Stop
  | setDuration (millseconds_duration : Nat) (start : Bool) (now : Nat)
  | setAutoReset (auto_reset : Bool)
  | Reset (now : Nat)
deriving DecidableEq, Repr

/-- Whether the call reaches `Start()`: `Start` itself, `Reset`, and `setDuration` with
`start == true`. -/
def TimerOp.callsStart : TimerOp → Bool
  | .Start _ => true
  | .Reset _ => true
  | .setDuration _ start _ => start
  | _ => false

/-- The timer after one client call, with the value `HasTimedOut` returned if that was the
call. -/
def timerStep (t : CIwGameTimer) : TimerOp → Option Bool × CIwGameTimer
  | .HasTimedOut now now2 => (some (t.HasTimedOut now now2).1, (t.HasTimedOut now now2).2)
  | .Start now => (none, t.Start now)
  | .Stop => (none, t.Stop)
  | .setDuration d start now => (none, t.setDuration d start now)
  | .setAutoReset b => (none, t.setAutoReset b)
  | .Reset now => (none, t.Reset now)

/-- The values returned by the `HasTimedOut` calls of a sequence of client calls, in order,
and the timer after the sequence. -/
def timerRun (t : CIwGameTimer) : List TimerOp → List Bool × CIwGameTimer
  | [] => ([], t)
  | op :: ops =>
    match (timerStep t op).1 with
    | some b => (b :: (timerRun (timerStep t op).2 ops).1, (timerRun (timerStep t op).2 ops).2)
    | none => timerRun (timerStep t op).2 ops

/-! Section: Loads, stores and loops -/

theorem getD_set (es : List (Option α)) (i j : Nat) (v : Option α) :
    (es.set i v).getD j none = if i = j ∧ i < es.length then v else es.getD j none := by
  simp only [List.getD_eq_getElem?_getD, List.getElem?_set]
  split_ifs with h1 h2 h3 h4 <;> simp_all
  · omega
  · rw [List.getElem?_eq_none (by omega)]; rfl

theorem getD_length_le (es : List (Option α)) (j : Nat) (h : es.length ≤ j) :
    es.getD j none = none := by
  simp [List.getD_eq_getElem?_getD, List.getElem?_eq_none h]

theorem lt_length_of_getD_some (es : List (Option α)) (j : Nat) (a : α)
    (h : es.getD j none = some a) : j < es.length := by
  by_contra hc
  rw [getD_length_le es j (by omega)] at h
  exact Option.noConfusion h

theorem length_store (es : List (Option α)) (i : Int) (v : Option α) :
    (store es i v).length = es.length := by
  unfold store; split_ifs <;> simp

theorem load_store (es : List (Option α)) (i j : Int) (v : Option α) :
    load (store es i v) j =
      if i = j ∧ 0 ≤ i ∧ i < es.length then v else load es j := by
  unfold load store
  by_cases hj : 0 ≤ j
  · by_cases hi : 0 ≤ i
    · rw [if_pos hj, if_pos hi, if_pos hj, getD_set]
      by_cases h : i = j
      · subst h
        by_cases hl : i < es.length
        · rw [if_pos ⟨rfl, by omega⟩, if_pos ⟨rfl, hi, hl⟩]
        · rw [if_neg (by omega), if_neg (by omega)]
      · rw [if_neg (by omega), if_neg (by omega)]
    · have hc : ¬ (i = j ∧ 0 ≤ i ∧ i < es.length) := by omega
      rw [if_neg hi, if_neg hc]
  · have hc : ¬ (i = j ∧ 0 ≤ i ∧ i < es.length) := by omega
    rw [if_neg hj, if_neg hc, if_neg hj]

/-- The loop `for (t = 0; t < n; t++) e[t] = f t` keeps the length of the block. -/
theorem length_fill (f : Nat → Option α) (n : Nat) (es : List (Option α)) :
    ((List.range n).foldl (fun e t => e.set t (f t)) es).length = es.length := by
  induction n with
  | zero => simp
  | succ n ih => simp [List.range_succ, List.foldl_append, ih]

/-- What the loop `for (t = 0; t < n; t++) e[t] = f t` leaves in slot `j`. -/
theorem getD_fill (f : Nat → Option α) (n : Nat) (es : List (Option α)) (j : Nat) :
    ((List.range n).foldl (fun e t => e.set t (f t)) es).getD j none =
      if j < n ∧ j < es.length then f j else es.getD j none := by
  induction n with
  | zero => simp
  | succ n ih =>
    simp only [List.range_succ, List.foldl_append, List.foldl_cons, List.foldl_nil]
    rw [getD_set, length_fill, ih]
    by_cases h1 : n = j
    · subst h1
      by_cases h2 : n < es.length
      · rw [if_pos ⟨rfl, h2⟩, if_pos ⟨by omega, h2⟩]
      · rw [if_neg (by omega), if_neg (by omega), if_neg (by omega)]
    · rw [if_neg (by omega)]
      by_cases h3 : j < n ∧ j < es.length
      · rw [if_pos h3, if_pos ⟨by omega, h3.2⟩]
      · rw [if_neg h3, if_neg (by omega)]

theorem countLoop_succ (es : List (Option α)) (n : Nat) :
    countLoop es (n + 1) = countLoop es n + (if es.getD n none ≠ none then 1 else 0) := by
  unfold countLoop
  simp only [List.range_succ, List.foldl_append, List.foldl_cons, List.foldl_nil]
  split_ifs <;> simp

theorem countLoop_bounds (es : List (Option α)) (n : Nat) :
    0 ≤ countLoop es n ∧ countLoop es n ≤ n := by
  induction n with
  | zero => simp [countLoop]
  | succ n ih =>
    rw [countLoop_succ]
    split_ifs <;> push_cast <;> omega

/-- Counting depends only on the slots below the bound. -/
theorem countLoop_congr (es fs : List (Option α)) (n : Nat)
    (h : ∀ t, t < n → fs.getD t none = es.getD t none) : countLoop fs n = countLoop es n := by
  induction n with
  | zero => simp [countLoop]
  | succ n ih =>
    rw [countLoop_succ, countLoop_succ, ih (fun t ht => h t (by omega)), h n (by omega)]

/-- Counting after one slot below the bound has changed. -/
theorem countLoop_update (es fs : List (Option α)) (n i : Nat) (hi : i < n)
    (h : ∀ t, t < n → t ≠ i → fs.getD t none = es.getD t none) :
    countLoop fs n = countLoop es n - (if es.getD i none ≠ none then 1 else 0)
      + (if fs.getD i none ≠ none then 1 else 0) := by
  induction n with
  | zero => omega
  | succ n ih =>
    rw [countLoop_succ, countLoop_succ]
    by_cases hin : i = n
    · subst hin
      rw [countLoop_congr es fs i (fun t ht => h t (by omega) (by omega))]
      omega
    · rw [ih (by omega) (fun t ht hne => h t (by omega) hne), h n (by omega) (by omega)]
      omega

theorem countLoop_eq_zero (es : List (Option α)) (n : Nat)
    (h : ∀ t, t < n → es.getD t none = none) : countLoop es n = 0 := by
  induction n with
  | zero => simp [countLoop]
  | succ n ih =>
    rw [countLoop_succ, ih (fun t ht => h t (by omega)), h n (by omega)]
    simp

theorem scan_some (p : Nat → Bool) (k lo t : Nat) (h : scan p lo k = some t) :
    lo ≤ t ∧ t < lo + k ∧ p t = true ∧ ∀ u, lo ≤ u → u < t → p u = false := by
  induction k generalizing lo with
  | zero => simp [scan] at h
  | succ k ih =>
    unfold scan at h
    by_cases hp : p lo = true
    · rw [if_pos hp] at h
      injection h with h
      subst h
      exact ⟨le_refl _, by omega, hp, fun u h1 h2 => by omega⟩
    · rw [if_neg hp] at h
      obtain ⟨h1, h2, h3, h4⟩ := ih (lo + 1) h
      refine ⟨by omega, by omega, h3, fun u hu1 hu2 => ?_⟩
      by_cases hul : u = lo
      · subst hul; simpa using hp
      · exact h4 u (by omega) hu2

theorem scan_none (p : Nat → Bool) (k lo : Nat) (h : scan p lo k = none) :
    ∀ u, lo ≤ u → u < lo + k → p u = false := by
  induction k generalizing lo with
  | zero => intro u h1 h2; omega
  | succ k ih =>
    unfold scan at h
    by_cases hp : p lo = true
    · rw [if_pos hp] at h; exact Option.noConfusion h
    · rw [if_neg hp] at h
      intro u h1 h2
      by_cases hul : u = lo
      · subst hul; simpa using hp
      · exact ih (lo + 1) h u (by omega) (by omega)

/-- The scan finds something as soon as the test succeeds somewhere in its range. -/
theorem scan_of_exists (p : Nat → Bool) (k lo u : Nat) (h1 : lo ≤ u) (h2 : u < lo + k)
    (hp : p u = true) : ∃ t, scan p lo k = some t := by
  cases hs : scan p lo k with
  | some t => exact ⟨t, rfl⟩
  | none =>
    have := scan_none p k lo hs u h1 h2
    rw [hp] at this
    exact Bool.noConfusion this

/-! Section: Removal by index, `clear` -/

open CIwGameSlotArray

/-- C7: `remove(int index)` with `index` outside `[0, Size)` (negative, or at least the
capacity) is a no-op: the whole state (every slot, `Size`, `Growth`, `LastFreedSlot`) is
unchanged, and therefore so is `count()`. -/
theorem remove_index_out_of_range_noop (s : CIwGameSlotArray α) (index : Int)
    (h : index < 0 ∨ index ≥ s.Size) :
    s.remove_index index = s ∧ (s.remove_index index).count = s.count ∧
      ∀ j, (s.remove_index index).element_at j = s.element_at j := by
  have h1 : s.remove_index index = s := by
    unfold remove_index
    rw [if_pos h]
  rw [h1]
  exact ⟨rfl, rfl, fun _ => rfl⟩

/-- Witness for C7: index `99` on a capacity-4 array holding two elements. -/
theorem remove_index_out_of_range_noop_witness :
    ((99 : Int) < 0 ∨ (99 : Int) ≥ (run (new 4 4 : CIwGameSlotArray Nat)
        [.add (some 7), .add (some 8)]).Size) ∧
      (run (new 4 4 : CIwGameSlotArray Nat) [.add (some 7), .add (some 8), .remove_index 99]).count
        = 2 :=
  ⟨by decide,
    ((remove_index_out_of_range_noop
      (run (new 4 4 : CIwGameSlotArray Nat) [.add (some 7), .add (some 8)]) 99
      (by decide)).2.1).trans (by decide)⟩

/-- C8: for `i` in `[0, Size)`, after `remove(int i)` the call `element_at(i)` returns `NULL`,
`LastFreedSlot` is `i` (whether or not the slot was occupied), and every other slot, the
capacity and the growth step are unchanged. -/
theorem remove_index_in_range (s : CIwGameSlotArray α) (i : Int) (h0 : 0 ≤ i) (h1 : i < s.Size) :
    (s.remove_index i).element_at i = none ∧
      (s.remove_index i).LastFreedSlot = i ∧
      (∀ j, j ≠ i → (s.remove_index i).element_at j = s.element_at j) ∧
      (s.remove_index i).Size = s.Size ∧ (s.remove_index i).Growth = s.Growth := by
  have hc : ¬ (i < 0 ∨ i ≥ s.Size) := by omega
  have hr : s.remove_index i =
      { s with Elements := store s.Elements i none, LastFreedSlot := i } := by
    unfold remove_index
    rw [if_neg hc]
  rw [hr]
  refine ⟨?_, rfl, ?_, rfl, rfl⟩
  · unfold element_at
    rw [if_neg hc]
    show load (store s.Elements i none) i = none
    rw [load_store]
    split_ifs with h
    · rfl
    · unfold load
      rw [if_pos h0]
      exact getD_length_le _ _ (by omega)
  · intro j hj
    unfold element_at
    show (if j < 0 ∨ j ≥ s.Size then none else load (store s.Elements i none) j) = _
    have hne : ¬ (i = j ∧ 0 ≤ i ∧ i < s.Elements.length) := fun h => hj h.1.symm
    rw [load_store, if_neg hne]

/-- Witness for C8: freeing the occupied slot `1` and the already free slot `3` of a
capacity-4 array. -/
theorem remove_index_in_range_witness :
    ((run (new 4 4 : CIwGameSlotArray Nat) [.add (some 7), .add (some 8)]).remove_index
        1).element_at 1 = none ∧
      ((run (new 4 4 : CIwGameSlotArray Nat) [.add (some 7), .add (some 8)]).remove_index
        3).LastFreedSlot = 3 :=
  ⟨(remove_index_in_range (run (new 4 4 : CIwGameSlotArray Nat) [.add (some 7), .add (some 8)])
      1 (by decide) (by decide)).1,
    (remove_index_in_range (run (new 4 4 : CIwGameSlotArray Nat) [.add (some 7), .add (some 8)])
      3 (by decide) (by decide)).2.1⟩

/-- C9: after `clear()`, `count()` is `0`, the capacity is what it was, and `element_at(i)`
returns `NULL` for every `i` (in particular for every `i` below the capacity). -/
theorem clear_empties (s : CIwGameSlotArray α) :
    s.clear.count = 0 ∧ s.clear.Size = s.Size ∧ ∀ i, s.clear.element_at i = none := by
  have hslot : ∀ t, t < s.Size.toNat → s.clear.Elements.getD t none = none := by
    intro t ht
    show ((List.range s.Size.toNat).foldl (fun e t => e.set t none) s.Elements).getD t none = none
    rw [getD_fill (fun _ => none)]
    split_ifs with h
    · rfl
    · exact getD_length_le _ _ (by omega)
  refine ⟨countLoop_eq_zero _ _ hslot, rfl, fun i => ?_⟩
  unfold element_at
  split_ifs with h
  · rfl
  · have hs : s.clear.Size = s.Size := rfl
    rw [hs] at h
    unfold load
    rw [if_pos (by omega)]
    exact hslot _ (by omega)

/-- C5: the scenario `new(2, 2)`, `add(A)`, `add(B)`, `add(C)`, `remove(A)`, `add(D)` for
non-null `A`, `B`, `C`, `D` (no distinctness is needed): `A` goes to index 0; `B` to index 1
with count 2 and capacity 2; `add(C)` grows the capacity to 4, puts `C` at index 2, sets the
hint to 3, count 3; `remove(A)` frees index 0, sets the hint to 0, count 2; `add(D)` reuses
index 0, count 3, `element_at(0) == D`.  Every `add` returns `true`. -/
theorem spec_scenario (A B C D : α) :
    let s0 : CIwGameSlotArray α := new 2 2
    let s1 := (s0.add (some A)).2
    let s2 := (s1.add (some B)).2
    let s3 := (s2.add (some C)).2
    let s4 := s3.remove (some A)
    let s5 := (s4.add (some D)).2
    ((s0.add (some A)).1 = true ∧ s1.element_at 0 = some A) ∧
    ((s1.add (some B)).1 = true ∧ s2.element_at 1 = some B ∧ s2.count = 2 ∧ s2.Size = 2) ∧
    ((s2.add (some C)).1 = true ∧ s3.Size = 4 ∧ s3.element_at 2 = some C ∧
      s3.LastFreedSlot = 3 ∧ s3.count = 3) ∧
    (s4.element_at 0 = none ∧ s4.LastFreedSlot = 0 ∧ s4.count = 2) ∧
    ((s4.add (some D)).1 = true ∧ s5.count = 3 ∧ s5.element_at 0 = some D ∧
      s5.Elements = [some D, some B, some C, none] ∧ s5.Size = 4) := by
  intro s0 s1 s2 s3 s4 s5
  have h1 : s0.add (some A) = (true, ⟨2, [some A, none], 2, -1⟩) := rfl
  have e1 : s1 = ⟨2, [some A, none], 2, -1⟩ := rfl
  have h2 : s1.add (some B) = (true, ⟨2, [some A, some B], 2, -1⟩) := by
    rw [e1]; rfl
  have e2 : s2 = ⟨2, [some A, some B], 2, -1⟩ := by
    show (s1.add (some B)).2 = _
    rw [h2]
  have h3 : s2.add (some C) = (true, ⟨2, [some A, some B, some C, none], 4, 3⟩) := by
    rw [e2]; rfl
  have e3 : s3 = ⟨2, [some A, some B, some C, none], 4, 3⟩ := by
    show (s2.add (some C)).2 = _
    rw [h3]
  have e4 : s4 = ⟨2, [none, some B, some C, none], 4, 0⟩ := by
    show s3.remove (some A) = _
    rw [e3]
    simp [remove, scan]
  have h5 : s4.add (some D) = (true, ⟨2, [some D, some B, some C, none], 4, -1⟩) := by
    rw [e4]; rfl
  have e5 : s5 = ⟨2, [some D, some B, some C, none], 4, -1⟩ := by
    show (s4.add (some D)).2 = _
    rw [h5]
  rw [h1, h2, h3, h5, e1, e2, e3, e4, e5]
  refine ⟨⟨rfl, rfl⟩, ⟨rfl, rfl, rfl, rfl⟩, ⟨rfl, rfl, rfl, rfl, rfl⟩, ⟨rfl, rfl, rfl⟩,
    ⟨rfl, rfl, rfl, rfl, rfl⟩⟩

/-! Section: Removal by value -/

/-- What `element_at` returns in terms of the block. -/
theorem element_at_eq_some (s : CIwGameSlotArray α) (i : Int) (a : α)
    (h : s.element_at i = some a) :
    0 ≤ i ∧ i < s.Size ∧ s.Elements.getD i.toNat none = some a := by
  unfold element_at at h
  by_cases hc : i < 0 ∨ i ≥ s.Size
  · rw [if_pos hc] at h; exact Option.noConfusion h
  · rw [if_neg hc] at h
    unfold load at h
    rw [if_pos (by omega)] at h
    exact ⟨by omega, by omega, h⟩

theorem element_at_of_getD (s : CIwGameSlotArray α) (t : Nat) (ht : t < s.Size.toNat) :
    s.element_at (t : Int) = s.Elements.getD t none := by
  have hc : ¬ ((t : Int) < 0 ∨ (t : Int) ≥ s.Size) := by omega
  unfold element_at load
  rw [if_neg hc, if_pos (by omega), Int.toNat_ofNat]

/-- The state after `remove(element)` when the scan stops at slot `t`. -/
theorem remove_of_scan_some (s : CIwGameSlotArray α) (x : Option α) (t : Nat)
    (h : scan (fun t => decide (s.Elements.getD t none = x)) 0 s.Size.toNat = some t) :
    s.remove x = { s with Elements := s.Elements.set t none, LastFreedSlot := (t : Int) } := by
  unfold remove
  rw [h]

theorem remove_of_scan_none (s : CIwGameSlotArray α) (x : Option α)
    (h : scan (fun t => decide (s.Elements.getD t none = x)) 0 s.Size.toNat = none) :
    s.remove x = s := by
  unfold remove
  rw [h]

/-- C6: `remove(x)` for a non-null `x` removes at most one occurrence: `count()` goes down by
exactly 1 when `x` is stored in some slot, the state (hence `count()`) is unchanged when it is
not, and the capacity is unchanged in both cases. -/
theorem remove_count (s : CIwGameSlotArray α) (a : α) :
    ((∃ i, s.element_at i = some a) → (s.remove (some a)).count = s.count - 1) ∧
      ((¬ ∃ i, s.element_at i = some a) →
        s.remove (some a) = s ∧ (s.remove (some a)).count = s.count) ∧
      (s.remove (some a)).Size = s.Size := by
  cases hs : scan (fun t => decide (s.Elements.getD t none = some a)) 0 s.Size.toNat with
  | none =>
    have hr := remove_of_scan_none s (some a) hs
    rw [hr]
    refine ⟨fun ⟨i, hi⟩ => ?_, fun _ => ⟨rfl, rfl⟩, rfl⟩
    obtain ⟨h0, h1, h2⟩ := element_at_eq_some s i a hi
    have := scan_none _ _ _ hs i.toNat (Nat.zero_le _) (by omega)
    rw [h2] at this
    simp at this
  | some t =>
    have hr := remove_of_scan_some s (some a) t hs
    obtain ⟨_, ht, hp, _⟩ := scan_some _ _ _ _ hs
    have hget : s.Elements.getD t none = some a := by simpa using hp
    have hlen : t < s.Elements.length := lt_length_of_getD_some _ _ _ hget
    rw [hr]
    refine ⟨fun _ => ?_, fun hne => ?_, rfl⟩
    · show countLoop (s.Elements.set t none) s.Size.toNat = countLoop s.Elements s.Size.toNat - 1
      have hfs : (s.Elements.set t none).getD t none = none := by
        rw [getD_set]
        exact if_pos ⟨rfl, hlen⟩
      rw [countLoop_update s.Elements (s.Elements.set t none) s.Size.toNat t (by omega)
        (fun u _ hu => by rw [getD_set, if_neg (by omega)]), hfs, hget]
      simp
    · exfalso
      apply hne
      refine ⟨(t : Int), ?_⟩
      rw [element_at_of_getD s t (by omega), hget]

/-- Witness for C6: `8` is stored twice, `5` is not stored. -/
theorem remove_count_witness :
    ((run (new 4 4 : CIwGameSlotArray Nat) [.add (some 8), .add (some 7), .add (some 8)]).remove
        (some 8)).count = 3 - 1 ∧
      (run (new 4 4 : CIwGameSlotArray Nat) [.add (some 8), .add (some 7), .add (some 8)]).remove
        (some 5) = run (new 4 4 : CIwGameSlotArray Nat) [.add (some 8), .add (some 7), .add (some 8)] :=
  ⟨(remove_count (run (new 4 4 : CIwGameSlotArray Nat)
      [.add (some 8), .add (some 7), .add (some 8)]) 8).1 ⟨0, by decide⟩,
    ((remove_count (run (new 4 4 : CIwGameSlotArray Nat)
      [.add (some 8), .add (some 7), .add (some 8)]) 5).2.1 (by
        rintro ⟨i, hi⟩
        have h := element_at_eq_some _ i 5 hi
        have h3 : i.toNat < 4 := by
          have := h.2.1
          have hsz : (run (new 4 4 : CIwGameSlotArray Nat)
            [.add (some 8), .add (some 7), .add (some 8)]).Size = 4 := by decide
          omega
        have h4 := h.2.2
        generalize i.toNat = k at h3 h4
        interval_cases k <;> revert h4 <;> decide)).1⟩

/-! Section: `grow` -/

theorem load_natCast (es : List (Option α)) (t : Nat) : load es (t : Int) = es.getD t none := by
  unfold load
  rw [if_pos (by omega), Int.toNat_ofNat]

theorem load_of_nonneg (es : List (Option α)) (i : Int) (h : 0 ≤ i) :
    load es i = es.getD i.toNat none := by
  unfold load
  rw [if_pos h]

/-- The second loop of `grow`, `for (t = 0; t < k; t++) e[t + sz] = NULL`, keeps the length. -/
theorem length_nullFill (sz : Int) (k : Nat) (es : List (Option α)) :
    ((List.range k).foldl (fun e (t : Nat) => store e ((t : Int) + sz) none) es).length = es.length := by
  induction k with
  | zero => simp
  | succ k ih => simp [List.range_succ, List.foldl_append, length_store, ih]

/-- The second loop of `grow` only ever writes `NULL`: a slot that held `NULL` still does, and
a slot below `sz` is not touched. -/
theorem load_nullFill (sz : Int) (k : Nat) (es : List (Option α)) (j : Int) :
    (load es j = none → load ((List.range k).foldl
        (fun e (t : Nat) => store e ((t : Int) + sz) none) es) j = none) ∧
      (j < sz → load ((List.range k).foldl
        (fun e (t : Nat) => store e ((t : Int) + sz) none) es) j = load es j) := by
  induction k with
  | zero => simp
  | succ k ih =>
    simp only [List.range_succ, List.foldl_append, List.foldl_cons, List.foldl_nil]
    rw [load_store]
    constructor
    · intro h
      split_ifs
      · rfl
      · exact ih.1 h
    · intro h
      have hc : ¬ ((k : Int) + sz = j ∧ 0 ≤ (k : Int) + sz ∧ (k : Int) + sz <
          (((List.range k).foldl (fun e (t : Nat) => store e ((t : Int) + sz) none) es).length : Int)) := by
        omega
      rw [if_neg hc]
      exact ih.2 h

theorem grow_Size (s : CIwGameSlotArray α) (growth : Int) :
    (s.grow growth).Size = s.Size + growth := rfl

theorem grow_Growth (s : CIwGameSlotArray α) (growth : Int) :
    (s.grow growth).Growth = s.Growth := rfl

theorem grow_LastFreedSlot (s : CIwGameSlotArray α) (growth : Int) :
    (s.grow growth).LastFreedSlot = s.LastFreedSlot := rfl

theorem grow_length (s : CIwGameSlotArray α) (growth : Int) :
    (s.grow growth).Elements.length = (s.Size + growth).toNat := by
  show ((List.range growth.toNat).foldl (fun e (t : Nat) => store e ((t : Int) + s.Size) none)
    ((List.range s.Size.toNat).foldl (fun e t => e.set t (s.Elements.getD t none))
      (List.replicate (s.Size + growth).toNat none))).length = _
  rw [length_nullFill, length_fill, List.length_replicate]

/-- The block after `grow(growth)`, `growth >= 0`: the old slots in place, `NULL` after them. -/
theorem grow_getD (s : CIwGameSlotArray α) (growth : Int) (hg : 0 ≤ growth) (j : Nat) :
    (s.grow growth).Elements.getD j none =
      if j < s.Size.toNat then s.Elements.getD j none else none := by
  have h1 : ∀ j : Nat, ((List.range s.Size.toNat).foldl
      (fun e t => e.set t (s.Elements.getD t none))
      (List.replicate (s.Size + growth).toNat none)).getD j none =
      if j < s.Size.toNat then s.Elements.getD j none else none := by
    intro j
    rw [getD_fill (fun t => s.Elements.getD t none), List.length_replicate]
    by_cases hj : j < s.Size.toNat
    · rw [if_pos ⟨hj, by omega⟩, if_pos hj]
    · rw [if_neg (fun h => hj h.1), if_neg hj]
      rw [List.getD_eq_getElem?_getD, List.getElem?_replicate]
      split_ifs <;> rfl
  rw [← load_natCast]
  show load ((List.range growth.toNat).foldl (fun e (t : Nat) => store e ((t : Int) + s.Size) none)
    ((List.range s.Size.toNat).foldl (fun e t => e.set t (s.Elements.getD t none))
      (List.replicate (s.Size + growth).toNat none))) (j : Int) = _
  by_cases hj : j < s.Size.toNat
  · rw [(load_nullFill s.Size growth.toNat _ (j : Int)).2 (by omega), load_natCast, h1]
  · rw [if_neg hj]
    apply (load_nullFill s.Size growth.toNat _ (j : Int)).1
    rw [load_natCast, h1, if_neg hj]

/-! Section: The four ways through `add` -/

/-- The hint fast path of `add` (lines 294-299). -/
theorem add_hint (s : CIwGameSlotArray α) (x : Option α) (h : 0 ≤ s.LastFreedSlot) :
    s.add x = (true,
      { s with Elements := store s.Elements s.LastFreedSlot x, LastFreedSlot := -1 }) := by
  unfold add
  rw [if_pos (by omega)]

/-- The scan of `add` finds the free slot `t` (lines 300-309). -/
theorem add_scan (s : CIwGameSlotArray α) (x : Option α) (h : s.LastFreedSlot < 0) (t : Nat)
    (hs : scan (fun t => decide (s.Elements.getD t none = none)) 0 s.Size.toNat = some t) :
    s.add x = (true, { s with Elements := s.Elements.set t x }) := by
  unfold add
  rw [if_neg (by omega), hs]

/-- No free slot and growth disabled: `add` fails (lines 311-313). -/
theorem add_full (s : CIwGameSlotArray α) (x : Option α) (h : s.LastFreedSlot < 0)
    (hs : scan (fun t => decide (s.Elements.getD t none = none)) 0 s.Size.toNat = none)
    (hg : s.Growth = 0) : s.add x = (false, s) := by
  unfold add
  rw [if_neg (by omega), hs]
  simp only [hg, if_true]

/-- No free slot and growth enabled: `add` grows (lines 315-320). -/
theorem add_grow (s : CIwGameSlotArray α) (x : Option α) (h : s.LastFreedSlot < 0)
    (hs : scan (fun t => decide (s.Elements.getD t none = none)) 0 s.Size.toNat = none)
    (hg : s.Growth ≠ 0) :
    s.add x = (true, { s.grow s.Growth with
      Elements := store (s.grow s.Growth).Elements (s.Size.toNat : Int) x
      LastFreedSlot := (s.Size.toNat : Int) + 1 }) := by
  unfold add
  rw [if_neg (by omega), hs]
  simp only [hg, if_false]

/-! Section: The invariant -/

theorem inv_new (n g : Nat) : Inv (new (n : Int) (g : Int) : CIwGameSlotArray α) := by
  refine ⟨by show (0 : Int) ≤ (n : Int); omega, ?_, by show (0 : Int) ≤ (g : Int); omega, ?_⟩
  · show (List.replicate (n : Int).toNat (none : Option α)).length = (n : Int).toNat
    rw [List.length_replicate]
  · intro _ _
    show load (List.replicate (n : Int).toNat (none : Option α)) 0 = none
    unfold load
    rw [if_pos (le_refl _), List.getD_eq_getElem?_getD, List.getElem?_replicate]
    split_ifs <;> rfl

theorem inv_add (s : CIwGameSlotArray α) (x : Option α) (h : Inv s) : Inv (s.add x).2 := by
  obtain ⟨h1, h2, h3, h4⟩ := h
  by_cases hh : 0 ≤ s.LastFreedSlot
  · rw [add_hint s x hh]
    refine ⟨h1, ?_, h3, ?_⟩
    · show (store s.Elements s.LastFreedSlot x).length = _
      rw [length_store, h2]
    · intro h5
      have : (0 : Int) ≤ -1 := h5
      omega
  · cases hs : scan (fun t => decide (s.Elements.getD t none = none)) 0 s.Size.toNat with
    | some t =>
      rw [add_scan s x (by omega) t hs]
      refine ⟨h1, ?_, h3, ?_⟩
      · show (s.Elements.set t x).length = _
        rw [List.length_set, h2]
      · intro h5
        exact absurd h5 hh
    | none =>
      by_cases hg : s.Growth = 0
      · rw [add_full s x (by omega) hs hg]
        exact ⟨h1, h2, h3, h4⟩
      · rw [add_grow s x (by omega) hs hg]
        refine ⟨?_, ?_, h3, ?_⟩
        · show 0 ≤ s.Size + s.Growth
          omega
        · show (store (s.grow s.Growth).Elements (s.Size.toNat : Int) x).length
            = (s.Size + s.Growth).toNat
          rw [length_store, grow_length]
        · intro _ _
          show load (store (s.grow s.Growth).Elements (s.Size.toNat : Int) x)
            ((s.Size.toNat : Int) + 1) = none
          have hc : ¬ ((s.Size.toNat : Int) = (s.Size.toNat : Int) + 1 ∧
              0 ≤ (s.Size.toNat : Int) ∧
              (s.Size.toNat : Int) < ((s.grow s.Growth).Elements.length : Int)) := by omega
          rw [load_store, if_neg hc]
          have he : (s.Size.toNat : Int) + 1 = ((s.Size.toNat + 1 : Nat) : Int) := by
            push_cast; rfl
          rw [he, load_natCast, grow_getD s s.Growth h3, if_neg (by omega)]

theorem inv_remove (s : CIwGameSlotArray α) (x : Option α) (h : Inv s) : Inv (s.remove x) := by
  obtain ⟨h1, h2, h3, h4⟩ := h
  cases hs : scan (fun t => decide (s.Elements.getD t none = x)) 0 s.Size.toNat with
  | none => rw [remove_of_scan_none s x hs]; exact ⟨h1, h2, h3, h4⟩
  | some t =>
    rw [remove_of_scan_some s x t hs]
    obtain ⟨_, ht, _, _⟩ := scan_some _ _ _ _ hs
    refine ⟨h1, ?_, h3, ?_⟩
    · show (s.Elements.set t none).length = _
      rw [List.length_set, h2]
    · intro _ _
      show load (s.Elements.set t none) (t : Int) = none
      rw [load_natCast, getD_set, if_pos ⟨rfl, by omega⟩]

theorem inv_remove_index (s : CIwGameSlotArray α) (i : Int) (h : Inv s) :
    Inv (s.remove_index i) := by
  obtain ⟨h1, h2, h3, h4⟩ := h
  unfold remove_index
  split_ifs with hc
  · exact ⟨h1, h2, h3, h4⟩
  · refine ⟨h1, ?_, h3, ?_⟩
    · show (store s.Elements i none).length = _
      rw [length_store, h2]
    · intro _ _
      show load (store s.Elements i none) i = none
      rw [load_store, if_pos ⟨rfl, by omega, by omega⟩]

theorem inv_clear (s : CIwGameSlotArray α) (h : Inv s) : Inv s.clear := by
  obtain ⟨h1, h2, h3, h4⟩ := h
  refine ⟨h1, ?_, h3, ?_⟩
  · show ((List.range s.Size.toNat).foldl (fun e t => e.set t none) s.Elements).length = _
    rw [length_fill (fun _ => none), h2]
    rfl
  · intro _ h6
    have h7 : (0 : Int) < s.Size := h6
    show load ((List.range s.Size.toNat).foldl (fun e t => e.set t none) s.Elements) 0 = none
    rw [load_of_nonneg _ _ (le_refl _), getD_fill (fun _ => none), if_pos ⟨by omega, by omega⟩]

theorem inv_step (s : CIwGameSlotArray α) (op : Op α) (h : Inv s) : Inv (step s op) := by
  cases op with
  | add x => exact inv_add s x h
  | remove x => exact inv_remove s x h
  | remove_index i => exact inv_remove_index s i h
  | clear => exact inv_clear s h

theorem inv_run (s : CIwGameSlotArray α) (ops : List (Op α)) (h : Inv s) : Inv (run s ops) := by
  induction ops generalizing s with
  | nil => exact h
  | cons op ops ih => exact ih (step s op) (inv_step s op h)

/-! Section: Stable handles -/

/-- An occupied index is inside `[0, Size)` and its slot is not `NULL`. -/
theorem occupied_in_range (s : CIwGameSlotArray α) (i : Int) (h : s.element_at i ≠ none) :
    0 ≤ i ∧ i < s.Size ∧ s.element_at i = load s.Elements i := by
  unfold element_at at h ⊢
  by_cases hc : i < 0 ∨ i ≥ s.Size
  · rw [if_pos hc] at h; exact absurd rfl h
  · rw [if_neg hc]
    exact ⟨by omega, by omega, rfl⟩

/-- `add` leaves an occupied slot alone, on each of its four paths. -/
theorem add_frame (s : CIwGameSlotArray α) (hinv : Inv s) (x : Option α) (i : Int)
    (hocc : s.element_at i ≠ none) : (s.add x).2.element_at i = s.element_at i := by
  obtain ⟨h1, h2, h3, h4⟩ := hinv
  obtain ⟨hi0, hi1, hel⟩ := occupied_in_range s i hocc
  have hload : load s.Elements i ≠ none := by rw [← hel]; exact hocc
  have hc : ¬ (i < 0 ∨ i ≥ s.Size) := by omega
  rw [hel]
  by_cases hh : 0 ≤ s.LastFreedSlot
  · rw [add_hint s x hh]
    unfold element_at
    show (if i < 0 ∨ i ≥ s.Size then none else load (store s.Elements s.LastFreedSlot x) i) = _
    have hne : ¬ (s.LastFreedSlot = i ∧ 0 ≤ s.LastFreedSlot ∧
        s.LastFreedSlot < (s.Elements.length : Int)) := by
      rintro ⟨he, _, _⟩
      apply hload
      rw [← he]
      exact h4 hh (by omega)
    rw [if_neg hc, load_store, if_neg hne]
  · cases hs : scan (fun t => decide (s.Elements.getD t none = none)) 0 s.Size.toNat with
    | some t =>
      rw [add_scan s x (by omega) t hs]
      obtain ⟨_, _, hp, _⟩ := scan_some _ _ _ _ hs
      have hfree : s.Elements.getD t none = none := by simpa using hp
      unfold element_at
      show (if i < 0 ∨ i ≥ s.Size then none else load (s.Elements.set t x) i) = _
      have hne : ¬ (t = i.toNat ∧ t < s.Elements.length) := by
        rintro ⟨he, _⟩
        apply hload
        rw [load_of_nonneg _ _ hi0, ← he]
        exact hfree
      rw [if_neg hc, load_of_nonneg _ _ hi0, getD_set, if_neg hne, load_of_nonneg _ _ hi0]
    | none =>
      by_cases hg : s.Growth = 0
      · rw [add_full s x (by omega) hs hg]
        exact hel
      · rw [add_grow s x (by omega) hs hg]
        unfold element_at
        show (if i < 0 ∨ i ≥ s.Size + s.Growth then none
          else load (store (s.grow s.Growth).Elements (s.Size.toNat : Int) x) i) = _
        have hc2 : ¬ (i < 0 ∨ i ≥ s.Size + s.Growth) := by omega
        have hne : ¬ ((s.Size.toNat : Int) = i ∧ 0 ≤ (s.Size.toNat : Int) ∧
            (s.Size.toNat : Int) < ((s.grow s.Growth).Elements.length : Int)) := by omega
        rw [if_neg hc2, load_store, if_neg hne, load_of_nonneg _ _ hi0, grow_getD s s.Growth h3,
          if_pos (by omega), load_of_nonneg _ _ hi0]

/-- `remove(int j)` leaves every slot other than `j` alone. -/
theorem remove_index_frame (s : CIwGameSlotArray α) (i j : Int) (hne : j ≠ i) :
    (s.remove_index j).element_at i = s.element_at i := by
  unfold remove_index
  split_ifs with hc
  · rfl
  · unfold element_at
    show (if i < 0 ∨ i ≥ s.Size then none else load (store s.Elements j none) i) = _
    have hn : ¬ (j = i ∧ 0 ≤ j ∧ j < (s.Elements.length : Int)) := fun h => hne h.1
    rw [load_store, if_neg hn]

/-- `remove(y)` leaves slot `i` alone unless `i` is the first slot that holds `y`. -/
theorem remove_frame (s : CIwGameSlotArray α) (y : Option α) (i : Int)
    (hnf : ¬ (s.element_at i = y ∧ ∀ j, 0 ≤ j → j < i → s.element_at j ≠ y))
    (hocc : s.element_at i ≠ none) : (s.remove y).element_at i = s.element_at i := by
  obtain ⟨hi0, hi1, hel⟩ := occupied_in_range s i hocc
  cases hs : scan (fun t => decide (s.Elements.getD t none = y)) 0 s.Size.toNat with
  | none => rw [remove_of_scan_none s y hs]
  | some t =>
    rw [remove_of_scan_some s y t hs]
    obtain ⟨_, ht, hp, hfirst⟩ := scan_some _ _ _ _ hs
    have hy : s.Elements.getD t none = y := by simpa using hp
    have hc : ¬ (i < 0 ∨ i ≥ s.Size) := by omega
    have hti : t ≠ i.toNat := by
      intro he
      apply hnf
      refine ⟨?_, fun j hj0 hj1 hj => ?_⟩
      · rw [hel, load_of_nonneg _ _ hi0, ← he]
        exact hy
      · have hlt : j.toNat < t := by omega
        have hp2 := hfirst j.toNat (Nat.zero_le _) hlt
        have hcj : ¬ (j < 0 ∨ j ≥ s.Size) := by omega
        unfold element_at at hj
        rw [if_neg hcj, load_of_nonneg _ _ hj0] at hj
        rw [hj] at hp2
        simp at hp2
    unfold element_at
    show (if i < 0 ∨ i ≥ s.Size then none else load (s.Elements.set t none) i) = _
    rw [if_neg hc, if_neg hc, load_of_nonneg _ _ hi0, getD_set, if_neg (fun h => hti h.1),
      load_of_nonneg _ _ hi0]

/-! Section: The reuse hint -/

/-- Counting over a longer range whose extra slots are all `NULL`. -/
theorem countLoop_extend (es : List (Option α)) (n k : Nat)
    (h : ∀ t, n ≤ t → t < n + k → es.getD t none = none) :
    countLoop es (n + k) = countLoop es n := by
  induction k with
  | zero => rfl
  | succ k ih =>
    rw [← Nat.add_assoc, countLoop_succ, ih (fun t h1 h2 => h t h1 (by omega)),
      h (n + k) (by omega) (by omega)]
    simp

/-- When the count reaches the bound, every slot below the bound is occupied. -/
theorem countLoop_full (es : List (Option α)) (n : Nat) (h : countLoop es n = n) :
    ∀ t, t < n → es.getD t none ≠ none := by
  induction n with
  | zero => intro t ht; omega
  | succ n ih =>
    rw [countLoop_succ] at h
    have hb := countLoop_bounds es n
    by_cases hn : es.getD n none ≠ none
    · rw [if_pos hn] at h
      intro t ht
      by_cases htn : t = n
      · subst htn; exact hn
      · exact ih (by push_cast at h; omega) t (by omega)
    · rw [if_neg hn] at h
      push_cast at h
      omega

/-- One client call keeps the hint at `-1` or inside `[0, Size)`, provided there is at least
one slot and the growth step is `0` or at least `2`. -/
theorem hint_range_step (s : CIwGameSlotArray α) (op : Op α) (hsz : 1 ≤ s.Size)
    (hg : s.Growth = 0 ∨ 2 ≤ s.Growth)
    (hh : s.LastFreedSlot = -1 ∨ (0 ≤ s.LastFreedSlot ∧ s.LastFreedSlot < s.Size)) :
    1 ≤ (step s op).Size ∧ (step s op).Growth = s.Growth ∧
      ((step s op).LastFreedSlot = -1 ∨
        (0 ≤ (step s op).LastFreedSlot ∧ (step s op).LastFreedSlot < (step s op).Size)) := by
  cases op with
  | add x =>
    show 1 ≤ (s.add x).2.Size ∧ (s.add x).2.Growth = s.Growth ∧
      ((s.add x).2.LastFreedSlot = -1 ∨
        (0 ≤ (s.add x).2.LastFreedSlot ∧ (s.add x).2.LastFreedSlot < (s.add x).2.Size))
    by_cases h0 : 0 ≤ s.LastFreedSlot
    · rw [add_hint s x h0]
      exact ⟨hsz, rfl, Or.inl rfl⟩
    · cases hs : scan (fun t => decide (s.Elements.getD t none = none)) 0 s.Size.toNat with
      | some t =>
        rw [add_scan s x (by omega) t hs]
        exact ⟨hsz, rfl, hh⟩
      | none =>
        by_cases hg0 : s.Growth = 0
        · rw [add_full s x (by omega) hs hg0]
          exact ⟨hsz, rfl, hh⟩
        · rw [add_grow s x (by omega) hs hg0]
          refine ⟨?_, rfl, Or.inr ⟨?_, ?_⟩⟩
          · show 1 ≤ s.Size + s.Growth
            omega
          · show 0 ≤ (s.Size.toNat : Int) + 1
            omega
          · show (s.Size.toNat : Int) + 1 < s.Size + s.Growth
            omega
  | remove x =>
    show 1 ≤ (s.remove x).Size ∧ (s.remove x).Growth = s.Growth ∧
      ((s.remove x).LastFreedSlot = -1 ∨
        (0 ≤ (s.remove x).LastFreedSlot ∧ (s.remove x).LastFreedSlot < (s.remove x).Size))
    cases hs : scan (fun t => decide (s.Elements.getD t none = x)) 0 s.Size.toNat with
    | none => rw [remove_of_scan_none s x hs]; exact ⟨hsz, rfl, hh⟩
    | some t =>
      rw [remove_of_scan_some s x t hs]
      obtain ⟨_, ht, _, _⟩ := scan_some _ _ _ _ hs
      refine ⟨hsz, rfl, Or.inr ⟨?_, ?_⟩⟩
      · show 0 ≤ (t : Int)
        omega
      · show (t : Int) < s.Size
        omega
  | remove_index i =>
    show 1 ≤ (s.remove_index i).Size ∧ (s.remove_index i).Growth = s.Growth ∧
      ((s.remove_index i).LastFreedSlot = -1 ∨
        (0 ≤ (s.remove_index i).LastFreedSlot ∧
          (s.remove_index i).LastFreedSlot < (s.remove_index i).Size))
    unfold remove_index
    split_ifs with hc
    · exact ⟨hsz, rfl, hh⟩
    · refine ⟨hsz, rfl, Or.inr ⟨?_, ?_⟩⟩
      · show 0 ≤ i
        omega
      · show i < s.Size
        omega
  | clear =>
    refine ⟨hsz, rfl, Or.inr ⟨le_refl _, ?_⟩⟩
    show (0 : Int) < s.Size
    omega

/-- With at least one initial slot and a growth step of `0` or at least `2`, every reachable
state has a sound hint (and satisfies `Inv`). -/
theorem hintOk_run (n g : Nat) (hn : 1 ≤ n) (hg : g = 0 ∨ 2 ≤ g) (ops : List (Op α)) :
    Inv (run (new (n : Int) (g : Int) : CIwGameSlotArray α) ops) ∧
      HintOk (run (new (n : Int) (g : Int) : CIwGameSlotArray α) ops) := by
  have key : ∀ (ops : List (Op α)) (s : CIwGameSlotArray α), Inv s → 1 ≤ s.Size →
      (s.Growth = 0 ∨ 2 ≤ s.Growth) →
      (s.LastFreedSlot = -1 ∨ (0 ≤ s.LastFreedSlot ∧ s.LastFreedSlot < s.Size)) →
      (run s ops).LastFreedSlot = -1 ∨
        (0 ≤ (run s ops).LastFreedSlot ∧ (run s ops).LastFreedSlot < (run s ops).Size) := by
    intro ops
    induction ops with
    | nil => intro s _ _ _ h; exact h
    | cons op ops ih =>
      intro s h1 h2 h3 h4
      obtain ⟨k1, k2, k3⟩ := hint_range_step s op h2 h3 h4
      exact ih (step s op) (inv_step s op h1) k1 (by rw [k2]; exact h3) k3
  have hi : Inv (run (new (n : Int) (g : Int) : CIwGameSlotArray α) ops) :=
    inv_run _ ops (inv_new n g)
  refine ⟨hi, ?_⟩
  have hr := key ops (new (n : Int) (g : Int)) (inv_new n g)
    (by show (1 : Int) ≤ (n : Int); omega)
    (by show (g : Int) = 0 ∨ 2 ≤ (g : Int); omega)
    (Or.inr ⟨le_refl _, by show (0 : Int) < (n : Int); omega⟩)
  rcases hr with h | ⟨h1, h2⟩
  · exact Or.inl h
  · exact Or.inr ⟨h1, h2, hi.2.2.2 h1 h2⟩

/-- With at least one initial slot and a growth step of `0` or at least `2`, where every store
of `add` is inside the block: in every state reached from `new(n, g)` and for every occupied
index `i`, `element_at(i)` is unchanged by `add(x)` for every `x`, by `remove(int j)` for every
`j != i`, and by `remove(y)` for every `y` that is not first found at index `i`. -/
theorem handles_stable_run (n g : Nat) (hn : 1 ≤ n) (hg : g = 0 ∨ 2 ≤ g) (ops : List (Op α))
    (i : Int) (hocc : (run (new (n : Int) (g : Int)) ops).element_at i ≠ none) :
    (∀ x, ((run (new (n : Int) (g : Int)) ops).add x).2.element_at i
        = (run (new (n : Int) (g : Int)) ops).element_at i) ∧
      (∀ j, j ≠ i → ((run (new (n : Int) (g : Int)) ops).remove_index j).element_at i
        = (run (new (n : Int) (g : Int)) ops).element_at i) ∧
      (∀ y, ¬ ((run (new (n : Int) (g : Int)) ops).element_at i = y ∧
          ∀ j, 0 ≤ j → j < i → (run (new (n : Int) (g : Int)) ops).element_at j ≠ y) →
        ((run (new (n : Int) (g : Int)) ops).remove y).element_at i
          = (run (new (n : Int) (g : Int)) ops).element_at i) :=
  ⟨fun x => add_frame _ (hintOk_run n g hn hg ops).1 x i hocc,
    fun j hj => remove_index_frame _ i j hj,
    fun y hy => remove_frame _ y i hy hocc⟩

/-- In a state with a sound hint, a successful `add` of a non-null element stores it in some
slot and raises `count()` by exactly one. -/
theorem add_success_of_hintOk (s : CIwGameSlotArray α) (hinv : Inv s) (hok : HintOk s) (a : α)
    (hres : (s.add (some a)).1 = true) :
    (∃ i, (s.add (some a)).2.element_at i = some a) ∧
      (s.add (some a)).2.count = s.count + 1 := by
  obtain ⟨h1, h2, h3, _⟩ := hinv
  by_cases hh : 0 ≤ s.LastFreedSlot
  · have hr : 0 ≤ s.LastFreedSlot ∧ s.LastFreedSlot < s.Size ∧
        load s.Elements s.LastFreedSlot = none := by
      rcases hok with h | h
      · omega
      · exact h
    obtain ⟨_, hlt, hfree⟩ := hr
    rw [add_hint s (some a) hh]
    have hc : ¬ (s.LastFreedSlot < 0 ∨ s.LastFreedSlot ≥ s.Size) := by omega
    constructor
    · refine ⟨s.LastFreedSlot, ?_⟩
      unfold element_at
      show (if s.LastFreedSlot < 0 ∨ s.LastFreedSlot ≥ s.Size then none
        else load (store s.Elements s.LastFreedSlot (some a)) s.LastFreedSlot) = some a
      rw [if_neg hc, load_store, if_pos ⟨rfl, hh, by omega⟩]
    · show countLoop (store s.Elements s.LastFreedSlot (some a)) s.Size.toNat
        = countLoop s.Elements s.Size.toNat + 1
      have hst : store s.Elements s.LastFreedSlot (some a)
          = s.Elements.set s.LastFreedSlot.toNat (some a) := by
        unfold store
        rw [if_pos hh]
      have hfs : (s.Elements.set s.LastFreedSlot.toNat (some a)).getD s.LastFreedSlot.toNat none
          = some a := by
        rw [getD_set]
        exact if_pos ⟨rfl, by omega⟩
      rw [load_of_nonneg _ _ hh] at hfree
      rw [hst, countLoop_update s.Elements _ s.Size.toNat s.LastFreedSlot.toNat (by omega)
        (fun u _ hu => by rw [getD_set, if_neg (by omega)]), hfs, hfree]
      simp
  · cases hs : scan (fun t => decide (s.Elements.getD t none = none)) 0 s.Size.toNat with
    | some t =>
      obtain ⟨_, ht, hp, _⟩ := scan_some _ _ _ _ hs
      have hfree : s.Elements.getD t none = none := by simpa using hp
      have hfs : (s.Elements.set t (some a)).getD t none = some a := by
        rw [getD_set]
        exact if_pos ⟨rfl, by omega⟩
      rw [add_scan s (some a) (by omega) t hs]
      constructor
      · refine ⟨(t : Int), ?_⟩
        have hc : ¬ ((t : Int) < 0 ∨ (t : Int) ≥ s.Size) := by omega
        unfold element_at
        show (if (t : Int) < 0 ∨ (t : Int) ≥ s.Size then none
          else load (s.Elements.set t (some a)) (t : Int)) = some a
        rw [if_neg hc, load_natCast, hfs]
      · show countLoop (s.Elements.set t (some a)) s.Size.toNat
          = countLoop s.Elements s.Size.toNat + 1
        rw [countLoop_update s.Elements _ s.Size.toNat t (by omega)
          (fun u _ hu => by rw [getD_set, if_neg (by omega)]), hfs, hfree]
        simp
    | none =>
      by_cases hg : s.Growth = 0
      · rw [add_full s (some a) (by omega) hs hg] at hres
        exact Bool.noConfusion hres
      · rw [add_grow s (some a) (by omega) hs hg]
        have hlen := grow_length s s.Growth
        have hst : store (s.grow s.Growth).Elements (s.Size.toNat : Int) (some a)
            = (s.grow s.Growth).Elements.set s.Size.toNat (some a) := by
          unfold store
          rw [if_pos (by omega), Int.toNat_ofNat]
        have hfs : ((s.grow s.Growth).Elements.set s.Size.toNat (some a)).getD s.Size.toNat none
            = some a := by
          rw [getD_set]
          exact if_pos ⟨rfl, by omega⟩
        constructor
        · refine ⟨(s.Size.toNat : Int), ?_⟩
          have hc : ¬ ((s.Size.toNat : Int) < 0 ∨ (s.Size.toNat : Int) ≥ s.Size + s.Growth) := by
            omega
          unfold element_at
          show (if (s.Size.toNat : Int) < 0 ∨ (s.Size.toNat : Int) ≥ s.Size + s.Growth then none
            else load (store (s.grow s.Growth).Elements (s.Size.toNat : Int) (some a))
              (s.Size.toNat : Int)) = some a
          rw [if_neg hc, hst, load_natCast, hfs]
        · show countLoop (store (s.grow s.Growth).Elements (s.Size.toNat : Int) (some a))
            (s.Size + s.Growth).toNat = countLoop s.Elements s.Size.toNat + 1
          have hsplit : (s.Size + s.Growth).toNat = s.Size.toNat + s.Growth.toNat := by omega
          have hold : countLoop (s.grow s.Growth).Elements (s.Size.toNat + s.Growth.toNat)
              = countLoop s.Elements s.Size.toNat := by
            rw [countLoop_extend _ _ _ (fun t h1 _ => by
              rw [grow_getD s s.Growth h3, if_neg (by omega)])]
            exact countLoop_congr _ _ _ (fun t ht => by
              rw [grow_getD s s.Growth h3, if_pos ht])
          have hnew : (s.grow s.Growth).Elements.getD s.Size.toNat none = none := by
            rw [grow_getD s s.Growth h3]
            exact if_neg (by omega)
          rw [hst, hsplit, countLoop_update (s.grow s.Growth).Elements _ _ s.Size.toNat (by omega)
            (fun u _ hu => by rw [getD_set, if_neg (by omega)]), hfs, hold, hnew]
          simp

/-- In a full state with a sound hint and growth disabled, `add` fails and changes nothing. -/
theorem add_full_of_hintOk (s : CIwGameSlotArray α) (hinv : Inv s) (hok : HintOk s)
    (hg : s.Growth = 0) (hfull : s.count = s.Size) (x : Option α) : s.add x = (false, s) := by
  obtain ⟨h1, _, _, _⟩ := hinv
  have hcnt : countLoop s.Elements s.Size.toNat = (s.Size.toNat : Int) := by
    have : s.count = countLoop s.Elements s.Size.toNat := rfl
    omega
  have hocc := countLoop_full _ _ hcnt
  have hh : s.LastFreedSlot < 0 := by
    rcases hok with h | ⟨h5, h6, h7⟩
    · omega
    · exfalso
      rw [load_of_nonneg _ _ h5] at h7
      exact hocc _ (by omega) h7
  cases hs : scan (fun t => decide (s.Elements.getD t none = none)) 0 s.Size.toNat with
  | some t =>
    exfalso
    obtain ⟨_, ht, hp, _⟩ := scan_some _ _ _ _ hs
    exact hocc t (by omega) (by simpa using hp)
  | none => exact add_full s x hh hs hg

/-- No client call changes the growth step. -/
theorem step_Growth (s : CIwGameSlotArray α) (op : Op α) : (step s op).Growth = s.Growth := by
  cases op with
  | add x =>
    show (s.add x).2.Growth = s.Growth
    by_cases h0 : 0 ≤ s.LastFreedSlot
    · rw [add_hint s x h0]
    · cases hs : scan (fun t => decide (s.Elements.getD t none = none)) 0 s.Size.toNat with
      | some t => rw [add_scan s x (by omega) t hs]
      | none =>
        by_cases hg0 : s.Growth = 0
        · rw [add_full s x (by omega) hs hg0]
        · rw [add_grow s x (by omega) hs hg0]
          rfl
  | remove x =>
    show (s.remove x).Growth = s.Growth
    cases hs : scan (fun t => decide (s.Elements.getD t none = x)) 0 s.Size.toNat with
    | none => rw [remove_of_scan_none s x hs]
    | some t => rw [remove_of_scan_some s x t hs]
  | remove_index i =>
    show (s.remove_index i).Growth = s.Growth
    unfold remove_index
    split_ifs <;> rfl
  | clear => rfl

/-- With at least one initial slot and a growth step of `0` or at least `2`: in every
reachable state a successful `add` of a non-null element stores it and raises `count()` by
exactly one. -/
theorem add_success_run (n g : Nat) (hn : 1 ≤ n) (hg : g = 0 ∨ 2 ≤ g) (ops : List (Op α))
    (a : α) (hres : ((run (new (n : Int) (g : Int)) ops).add (some a)).1 = true) :
    (∃ i, ((run (new (n : Int) (g : Int)) ops).add (some a)).2.element_at i = some a) ∧
      ((run (new (n : Int) (g : Int)) ops).add (some a)).2.count
        = (run (new (n : Int) (g : Int)) ops).count + 1 :=
  add_success_of_hintOk _ (hintOk_run n g hn hg ops).1 (hintOk_run n g hn hg ops).2 a hres

/-- With at least one initial slot and growth step `0`: in every reachable state that is full,
`add` returns `false` and leaves the state as it was. -/
theorem add_full_run (n : Nat) (hn : 1 ≤ n) (ops : List (Op α))
    (hfull : (run (new (n : Int) ((0 : Nat) : Int) : CIwGameSlotArray α) ops).count
      = (run (new (n : Int) ((0 : Nat) : Int) : CIwGameSlotArray α) ops).Size)
    (x : Option α) :
    (run (new (n : Int) ((0 : Nat) : Int) : CIwGameSlotArray α) ops).add x
      = (false, run (new (n : Int) ((0 : Nat) : Int)) ops) := by
  have h : Inv (run (new (n : Int) ((0 : Nat) : Int) : CIwGameSlotArray α) ops) ∧
      HintOk (run (new (n : Int) ((0 : Nat) : Int) : CIwGameSlotArray α) ops) :=
    hintOk_run n 0 hn (Or.inl rfl) ops
  have hgr : ∀ (ops : List (Op α)) (s : CIwGameSlotArray α),
      (run s ops).Growth = s.Growth := by
    intro ops
    induction ops with
    | nil => intro s; rfl
    | cons op ops ih =>
      intro s
      exact (ih (step s op)).trans (step_Growth s op)
  exact add_full_of_hintOk _ h.1 h.2 (hgr ops _) hfull x

/-- C1 at `new(1, 1)`, `add(7)`, `add(8)`: the growing `add(8)` left `LastFreedSlot == 2` on a
block of 2 slots.  The next `add(9)` takes the hint fast path, whose store `Elements[2]` is
outside the block, and returns `true`; `count()` is still 2 and no index holds `9`. -/
theorem add_true_nothing_stored :
    (run (new 1 1 : CIwGameSlotArray Nat) [.add (some 7), .add (some 8)]).LastFreedSlot = 2 ∧
      (run (new 1 1 : CIwGameSlotArray Nat) [.add (some 7), .add (some 8)]).Elements.length = 2 ∧
      ((run (new 1 1 : CIwGameSlotArray Nat) [.add (some 7), .add (some 8)]).add (some 9)).1
        = true ∧
      ((run (new 1 1 : CIwGameSlotArray Nat) [.add (some 7), .add (some 8)]).add (some 9)).2.count
        = (run (new 1 1 : CIwGameSlotArray Nat) [.add (some 7), .add (some 8)]).count ∧
      ∀ i, ((run (new 1 1 : CIwGameSlotArray Nat) [.add (some 7), .add (some 8)]).add
        (some 9)).2.element_at i ≠ some 9 := by
  refine ⟨by decide, by decide, by decide, by decide, fun i hi => ?_⟩
  obtain ⟨h0, h1, h2⟩ := element_at_eq_some _ i 9 hi
  have hsz : ((run (new 1 1 : CIwGameSlotArray Nat) [.add (some 7), .add (some 8)]).add
      (some 9)).2.Size = 2 := by decide
  have h3 : i.toNat < 2 := by omega
  generalize i.toNat = k at h2 h3
  interval_cases k <;> revert h2 <;> decide

/-- C2 at `new(0, 0)`: every slot is occupied (`count() == 0 == Size`) and growth is disabled,
yet `add(7)` returns `true`: the constructor left `LastFreedSlot == 0`, so `add` takes the hint
fast path and stores to `Elements[0]` of a block of length 0. -/
theorem add_true_on_full_empty_array :
    (new 0 0 : CIwGameSlotArray Nat).count = (new 0 0 : CIwGameSlotArray Nat).Size ∧
      (new 0 0 : CIwGameSlotArray Nat).Growth = 0 ∧
      (new 0 0 : CIwGameSlotArray Nat).LastFreedSlot = 0 ∧
      (new 0 0 : CIwGameSlotArray Nat).Elements.length = 0 ∧
      ((new 0 0 : CIwGameSlotArray Nat).add (some 7)).1 = true ∧
      ((new 0 0 : CIwGameSlotArray Nat).add (some 7)).2.count = 0 := by
  decide

/-- C3 at `new(1, 1)`, `add(7)`, `add(8)` and at `new(0, 4)`: the hint is neither `-1` nor an
index inside `[0, Size)`: it is `2` with `Size == 2` after the growing `add`, and `0` with
`Size == 0` right after construction. -/
theorem hint_out_of_range :
    ¬ HintOk (run (new 1 1 : CIwGameSlotArray Nat) [.add (some 7), .add (some 8)]) ∧
      (run (new 1 1 : CIwGameSlotArray Nat) [.add (some 7), .add (some 8)]).LastFreedSlot = 2 ∧
      (run (new 1 1 : CIwGameSlotArray Nat) [.add (some 7), .add (some 8)]).Size = 2 ∧
      ¬ HintOk (new 0 4 : CIwGameSlotArray Nat) ∧
      (new 0 4 : CIwGameSlotArray Nat).LastFreedSlot = 0 ∧
      (new 0 4 : CIwGameSlotArray Nat).Size = 0 := by
  decide

/-! Section: `grow` and the size invariants -/

/-- What the body of `grow` computes for `growth >= 0`: the capacity is `Size + growth` and
the block that long, `element_at(i)` is as it was for `i < Size`, the slots in
`[Size, Size + growth)` are free, and `count()`, `LastFreedSlot` and `Growth` are unchanged. -/
theorem grow_body (s : CIwGameSlotArray α) (additional : Int) (h : 0 ≤ additional) :
    (s.grow additional).Size = s.Size + additional ∧
      (s.grow additional).Elements.length = (s.Size + additional).toNat ∧
      (∀ i, i < s.Size → (s.grow additional).element_at i = s.element_at i) ∧
      (∀ i, s.Size ≤ i → i < s.Size + additional → (s.grow additional).element_at i = none) ∧
      (s.grow additional).count = s.count ∧
      (s.grow additional).LastFreedSlot = s.LastFreedSlot ∧
      (s.grow additional).Growth = s.Growth := by
  refine ⟨rfl, grow_length s additional, fun i hi => ?_, fun i hi1 hi2 => ?_, ?_, rfl, rfl⟩
  · unfold element_at
    rw [grow_Size]
    by_cases h0 : i < 0
    · rw [if_pos (Or.inl h0), if_pos (Or.inl h0)]
    · have hc1 : ¬ (i < 0 ∨ i ≥ s.Size + additional) := by omega
      have hc2 : ¬ (i < 0 ∨ i ≥ s.Size) := by omega
      rw [if_neg hc1, if_neg hc2, load_of_nonneg _ _ (by omega), load_of_nonneg _ _ (by omega),
        grow_getD s additional h, if_pos (by omega)]
  · unfold element_at
    split_ifs with hc
    · rfl
    · rw [load_of_nonneg _ _ (by omega), grow_getD s additional h, if_neg (by omega)]
  · show countLoop (s.grow additional).Elements (s.Size + additional).toNat
      = countLoop s.Elements s.Size.toNat
    have hsplit : (s.Size + additional).toNat
        = s.Size.toNat + ((s.Size + additional).toNat - s.Size.toNat) := by omega
    rw [hsplit, countLoop_extend _ _ _ (fun t h1 _ => by
      rw [grow_getD s additional h, if_neg (by omega)])]
    exact countLoop_congr _ _ _ (fun t ht => by rw [grow_getD s additional h, if_pos ht])

/-- C11, as stated, fails: on a 1-slot array `grow(2147483647)` does not yield capacity
`1 + 2147483647`: the length of the allocation does not fit an `int` and the call throws. -/
theorem grow_throws_at_int_max :
    (0 : Int) ≤ 2147483647 ∧
      (run (new 1 4 : CIwGameSlotArray Nat) [.add (some 7)]).Size = 1 ∧
      (run (new 1 4 : CIwGameSlotArray Nat) [.add (some 7)]).grow_checked 2147483647 = none := by
  decide

/-- C11, amended: for a capacity `Size >= 0` and `additional >= 0` with
`Size + additional <= INT_MAX`, so that the allocation does not throw, `grow(additional)`
completes, makes the capacity `Size + additional` (and the block that long), leaves
`element_at(i)` as it was for every `i < Size`, makes every slot in
`[Size, Size + additional)` free, and leaves `count()`, `LastFreedSlot` and `Growth`
unchanged. -/
theorem grow_checked_spec (s : CIwGameSlotArray α) (additional : Int) (hs : 0 ≤ s.Size)
    (h : 0 ≤ additional) (hfit : s.Size + additional ≤ INT_MAX) :
    ∃ g, s.grow_checked additional = some g ∧
      g.Size = s.Size + additional ∧
      g.Elements.length = (s.Size + additional).toNat ∧
      (∀ i, i < s.Size → g.element_at i = s.element_at i) ∧
      (∀ i, s.Size ≤ i → i < s.Size + additional → g.element_at i = none) ∧
      g.count = s.count ∧ g.LastFreedSlot = s.LastFreedSlot ∧ g.Growth = s.Growth := by
  refine ⟨s.grow additional, ?_, grow_body s additional h⟩
  unfold grow_checked
  rw [if_pos ⟨hs, h, hfit⟩]

/-- Witness for the amended C11: growing a full 2-slot array by 3. -/
theorem grow_checked_spec_witness :
    ∃ g, (run (new 2 2 : CIwGameSlotArray Nat) [.add (some 7), .add (some 8)]).grow_checked 3
        = some g ∧ g.Size = 2 + 3 ∧ g.count = 2 := by
  obtain ⟨g, h1, h2, _, _, _, h6, _⟩ := grow_checked_spec
    (run (new 2 2 : CIwGameSlotArray Nat) [.add (some 7), .add (some 8)]) 3
    (by decide) (by decide) (by decide)
  exact ⟨g, h1, h2, h6.trans (by decide)⟩

/-- With at least one initial slot and a growth step of `0` or at least `2`, where every store
of `add` is inside the block: after every sequence of `add`, `remove(T)`, `remove(int)` and
`clear` applied to `new(n, g)`, the block has exactly `Size` slots, `Size` is not negative,
and `0 <= count() <= Size`. -/
theorem size_invariants_run (n g : Nat) (hn : 1 ≤ n) (hg : g = 0 ∨ 2 ≤ g) (ops : List (Op α)) :
    ((run (new (n : Int) (g : Int) : CIwGameSlotArray α) ops).Elements.length : Int)
        = (run (new (n : Int) (g : Int) : CIwGameSlotArray α) ops).Size ∧
      0 ≤ (run (new (n : Int) (g : Int) : CIwGameSlotArray α) ops).count ∧
      (run (new (n : Int) (g : Int) : CIwGameSlotArray α) ops).count
        ≤ (run (new (n : Int) (g : Int) : CIwGameSlotArray α) ops).Size := by
  obtain ⟨h1, h2, _, _⟩ := (hintOk_run n g hn hg ops).1
  have hb := countLoop_bounds (run (new (n : Int) (g : Int) : CIwGameSlotArray α) ops).Elements
    (run (new (n : Int) (g : Int) : CIwGameSlotArray α) ops).Size.toNat
  refine ⟨by omega, hb.1, ?_⟩
  show countLoop _ _ ≤ _
  omega

/-- The scan stops at `k` when the test succeeds at `k` and fails everywhere before it. -/
theorem scan_lowest (p : Nat → Bool) (n lo k : Nat) (h1 : lo ≤ k) (h2 : k < lo + n)
    (hp : p k = true) (hl : ∀ u, lo ≤ u → u < k → p u = false) : scan p lo n = some k := by
  obtain ⟨t, ht⟩ := scan_of_exists p n lo k h1 h2 hp
  obtain ⟨g1, _, g3, g4⟩ := scan_some p n lo t ht
  have : t = k := by
    rcases Nat.lt_trichotomy t k with h | h | h
    · have := hl t g1 h
      rw [g3] at this
      exact Bool.noConfusion this
    · exact h
    · have := g4 k h1 h
      rw [hp] at this
      exact Bool.noConfusion this
  rw [ht, this]

/-- Reading a state whose block differs from that of `s` in slot `k` only. -/
theorem element_at_set (s : CIwGameSlotArray α) (k : Nat) (v : Option α) (hk : k < s.Size.toNat)
    (hlen : k < s.Elements.length) (hint : Int) :
    ({ s with Elements := s.Elements.set k v, LastFreedSlot := hint } :
        CIwGameSlotArray α).element_at (k : Int) = v ∧
      ∀ j, j ≠ (k : Int) →
        ({ s with Elements := s.Elements.set k v, LastFreedSlot := hint } :
          CIwGameSlotArray α).element_at j = s.element_at j := by
  constructor
  · have hc : ¬ ((k : Int) < 0 ∨ (k : Int) ≥ s.Size) := by omega
    unfold element_at
    show (if (k : Int) < 0 ∨ (k : Int) ≥ s.Size then none
      else load (s.Elements.set k v) (k : Int)) = v
    rw [if_neg hc, load_natCast, getD_set]
    exact if_pos ⟨rfl, hlen⟩
  · intro j hj
    unfold element_at
    show (if j < 0 ∨ j ≥ s.Size then none else load (s.Elements.set k v) j) = _
    by_cases hc : j < 0 ∨ j ≥ s.Size
    · rw [if_pos hc, if_pos hc]
    · have hne : ¬ (k = j.toNat ∧ k < s.Elements.length) := by omega
      rw [if_neg hc, if_neg hc, load_of_nonneg _ _ (by omega), getD_set, if_neg hne,
        load_of_nonneg _ _ (by omega)]

/-- With no hint pending and a free slot somewhere, `add(x)` fills the lowest free slot and
touches nothing else. -/
theorem add_lowest_free (s : CIwGameSlotArray α) (x : Option α)
    (hlen : s.Elements.length = s.Size.toNat) (hhint : s.LastFreedSlot < 0)
    (hfree : ∃ i, 0 ≤ i ∧ i < s.Size ∧ s.element_at i = none) :
    ∃ i0, 0 ≤ i0 ∧ i0 < s.Size ∧ s.element_at i0 = none ∧
      (∀ j, 0 ≤ j → j < i0 → s.element_at j ≠ none) ∧
      (s.add x).1 = true ∧ (s.add x).2.element_at i0 = x ∧
      (∀ j, j ≠ i0 → (s.add x).2.element_at j = s.element_at j) ∧
      (s.add x).2.Size = s.Size ∧ (s.add x).2.LastFreedSlot = s.LastFreedSlot ∧
      (s.add x).2.Growth = s.Growth ∧
      (s.add x).2.Elements.length = s.Elements.length := by
  obtain ⟨i, hi0, hi1, hi2⟩ := hfree
  have hgi : s.Elements.getD i.toNat none = none := by
    rw [← element_at_of_getD s i.toNat (by omega), Int.toNat_of_nonneg hi0]
    exact hi2
  obtain ⟨t, ht⟩ := scan_of_exists (fun t => decide (s.Elements.getD t none = none)) s.Size.toNat
    0 i.toNat (Nat.zero_le _) (by omega) (by simpa using hgi)
  obtain ⟨_, g2, g3, g4⟩ := scan_some _ _ _ _ ht
  have hgt : s.Elements.getD t none = none := by simpa using g3
  have hset := element_at_set s t x (by omega) (by omega) s.LastFreedSlot
  refine ⟨(t : Int), by omega, by omega, ?_, fun j hj0 hj1 hj => ?_, ?_⟩
  · rw [element_at_of_getD s t (by omega)]
    exact hgt
  · have hp := g4 j.toNat (Nat.zero_le _) (by omega)
    rw [← element_at_of_getD s j.toNat (by omega), Int.toNat_of_nonneg hj0, hj] at hp
    simp at hp
  · rw [add_scan s x hhint t ht]
    exact ⟨rfl, hset.1, hset.2, rfl, rfl, rfl, List.length_set _ _ _⟩

/-- C13: with no reuse hint pending (`LastFreedSlot == -1`) and at least one free slot,
`add(x)` returns `true`, places `x` at the lowest-indexed free slot, and leaves every other
slot, the capacity, the growth step and the (empty) hint unchanged.  The block is assumed to be
as long as `Size` says, as it is in every array the class builds. -/
theorem add_fills_lowest_free (s : CIwGameSlotArray α) (x : Option α)
    (hlen : s.Elements.length = s.Size.toNat) (hhint : s.LastFreedSlot = -1)
    (hfree : ∃ i, 0 ≤ i ∧ i < s.Size ∧ s.element_at i = none) :
    ∃ i0, 0 ≤ i0 ∧ i0 < s.Size ∧ s.element_at i0 = none ∧
      (∀ j, 0 ≤ j → j < i0 → s.element_at j ≠ none) ∧
      (s.add x).1 = true ∧ (s.add x).2.element_at i0 = x ∧
      (∀ j, j ≠ i0 → (s.add x).2.element_at j = s.element_at j) ∧
      (s.add x).2.Size = s.Size ∧ (s.add x).2.LastFreedSlot = -1 ∧
      (s.add x).2.Growth = s.Growth := by
  obtain ⟨i0, h1, h2, h3, h4, h5, h6, h7, h8, h9, h10, _⟩ :=
    add_lowest_free s x hlen (by omega) hfree
  exact ⟨i0, h1, h2, h3, h4, h5, h6, h7, h8, h9.trans hhint, h10⟩

/-- Witness for C13: slots 0 and 2 of a 4-slot array are occupied, slot 1 was freed and the
hint consumed; `add(9)` lands in slot 1. -/
theorem add_fills_lowest_free_witness :
    ∃ i0 : Int, 0 ≤ i0 ∧
      i0 < (run (new 4 4 : CIwGameSlotArray Nat) [.add (some 7), .add (some 8), .add (some 6),
        .remove_index 1, .remove_index 0, .add (some 5)]).Size ∧
      ((run (new 4 4 : CIwGameSlotArray Nat) [.add (some 7), .add (some 8), .add (some 6),
        .remove_index 1, .remove_index 0, .add (some 5)]).add (some 9)).2.element_at i0
        = some 9 := by
  obtain ⟨i0, h1, h2, _, _, _, h6, _⟩ := add_fills_lowest_free
    (run (new 4 4 : CIwGameSlotArray Nat) [.add (some 7), .add (some 8), .add (some 6),
      .remove_index 1, .remove_index 0, .add (some 5)]) (some 9) (by decide) (by decide)
    ⟨1, by decide, by decide, by decide⟩
  exact ⟨i0, h1, h2, h6⟩

/-- C15: `remove(x)` for a non-null `x`.  If `x` is stored, there is a lowest index `i0`
holding `x`; `remove(x)` frees exactly that slot, sets `LastFreedSlot` to `i0`, and leaves
every other slot (later slots holding `x` included), the capacity and the growth step
unchanged.  If `x` is not stored, the whole state is unchanged. -/
theorem remove_frees_lowest (s : CIwGameSlotArray α) (a : α) :
    ((∃ i, s.element_at i = some a) →
      ∃ i0, s.element_at i0 = some a ∧ (∀ j, 0 ≤ j → j < i0 → s.element_at j ≠ some a) ∧
        (s.remove (some a)).element_at i0 = none ∧
        (s.remove (some a)).LastFreedSlot = i0 ∧
        (∀ j, j ≠ i0 → (s.remove (some a)).element_at j = s.element_at j) ∧
        (s.remove (some a)).Size = s.Size ∧ (s.remove (some a)).Growth = s.Growth) ∧
      ((¬ ∃ i, s.element_at i = some a) → s.remove (some a) = s) := by
  cases hs : scan (fun t => decide (s.Elements.getD t none = some a)) 0 s.Size.toNat with
  | none =>
    refine ⟨fun ⟨i, hi⟩ => ?_, fun _ => remove_of_scan_none s (some a) hs⟩
    exfalso
    obtain ⟨h0, h1, h2⟩ := element_at_eq_some s i a hi
    have := scan_none _ _ _ hs i.toNat (Nat.zero_le _) (by omega)
    rw [h2] at this
    simp at this
  | some t =>
    obtain ⟨_, g2, g3, g4⟩ := scan_some _ _ _ _ hs
    have hget : s.Elements.getD t none = some a := by simpa using g3
    have hlen : t < s.Elements.length := lt_length_of_getD_some _ _ _ hget
    have hat : s.element_at (t : Int) = some a := by
      rw [element_at_of_getD s t (by omega)]
      exact hget
    constructor
    · intro _
      have hset := element_at_set s t none (by omega) hlen (t : Int)
      refine ⟨(t : Int), hat, fun j hj0 hj1 hj => ?_, ?_⟩
      · have hp := g4 j.toNat (Nat.zero_le _) (by omega)
        rw [← element_at_of_getD s j.toNat (by omega), Int.toNat_of_nonneg hj0, hj] at hp
        simp at hp
      · rw [remove_of_scan_some s (some a) t hs]
        exact ⟨hset.1, rfl, hset.2, rfl, rfl⟩
    · intro hne
      exact absurd ⟨(t : Int), hat⟩ hne

/-- Witness for C15: `8` sits in slots 0 and 2; `remove(8)` frees slot 0 only.  `5` is not
stored and `remove(5)` changes nothing. -/
theorem remove_frees_lowest_witness :
    (∃ i0 : Int, (run (new 4 4 : CIwGameSlotArray Nat)
        [.add (some 8), .add (some 7), .add (some 8)]).element_at i0 = some 8 ∧
      ((run (new 4 4 : CIwGameSlotArray Nat)
        [.add (some 8), .add (some 7), .add (some 8)]).remove (some 8)).LastFreedSlot = i0) ∧
      (run (new 4 4 : CIwGameSlotArray Nat) [.add (some 8), .add (some 7), .add (some 8)]).remove
        (some 5) = run (new 4 4 : CIwGameSlotArray Nat)
          [.add (some 8), .add (some 7), .add (some 8)] := by
  constructor
  · obtain ⟨i0, h1, _, _, h4, _⟩ := (remove_frees_lowest (run (new 4 4 : CIwGameSlotArray Nat)
      [.add (some 8), .add (some 7), .add (some 8)]) 8).1 ⟨2, by decide⟩
    exact ⟨i0, h1, h4⟩
  · apply (remove_frees_lowest (run (new 4 4 : CIwGameSlotArray Nat)
      [.add (some 8), .add (some 7), .add (some 8)]) 5).2
    rintro ⟨i, hi⟩
    obtain ⟨_, h1, h2⟩ := element_at_eq_some _ i 5 hi
    have hsz : (run (new 4 4 : CIwGameSlotArray Nat)
      [.add (some 8), .add (some 7), .add (some 8)]).Size = 4 := by decide
    have h3 : i.toNat < 4 := by omega
    generalize i.toNat = k at h2 h3
    interval_cases k <;> revert h2 <;> decide

/-- C16: the reuse hint is a one-slot cache with LIFO bias.  For distinct indices `i`, `j`
inside `[0, Size)`: after `remove(int i)` then `remove(int j)`, `add(x)` returns `true` and
stores `x` at `j` (not `i`), slot `i` stays free and the hint is `-1`; the following `add(y)`
returns `true` and stores `y` at the lowest-indexed free slot, which the scan finds.  The
block is assumed to be as long as `Size` says. -/
theorem hint_is_lifo (s : CIwGameSlotArray α) (hlen : s.Elements.length = s.Size.toNat)
    (i j : Int) (hi0 : 0 ≤ i) (hi1 : i < s.Size) (hj0 : 0 ≤ j) (hj1 : j < s.Size) (hij : i ≠ j)
    (x y : Option α) :
    let s2 := (s.remove_index i).remove_index j
    let s3 := (s2.add x).2
    (s2.add x).1 = true ∧ s3.element_at j = x ∧ s3.element_at i = none ∧
      s3.LastFreedSlot = -1 ∧ s3.Size = s.Size ∧
      ∃ i0, 0 ≤ i0 ∧ i0 ≤ i ∧ s3.element_at i0 = none ∧
        (∀ k, 0 ≤ k → k < i0 → s3.element_at k ≠ none) ∧
        (s3.add y).1 = true ∧ (s3.add y).2.element_at i0 = y ∧
        (∀ k, k ≠ i0 → (s3.add y).2.element_at k = s3.element_at k) := by
  intro s2 s3
  have hci : ¬ (i < 0 ∨ i ≥ s.Size) := by omega
  have hcj : ¬ (j < 0 ∨ j ≥ s.Size) := by omega
  have e1 : s.remove_index i
      = { s with Elements := store s.Elements i none, LastFreedSlot := i } := by
    unfold remove_index
    rw [if_neg hci]
  have e2 : s2 = { s with
      Elements := store (store s.Elements i none) j none, LastFreedSlot := j } := by
    show (s.remove_index i).remove_index j = _
    rw [e1]
    unfold remove_index
    rw [if_neg hcj]
  have e3 : s2.add x = (true, { s with
      Elements := store (store (store s.Elements i none) j none) j x, LastFreedSlot := -1 }) := by
    rw [e2]
    exact add_hint _ x hj0
  have e4 : s3 = { s with
      Elements := store (store (store s.Elements i none) j none) j x, LastFreedSlot := -1 } := by
    show (s2.add x).2 = _
    rw [e3]
  have hatj : s3.element_at j = x := by
    rw [e4]
    unfold element_at
    show (if j < 0 ∨ j ≥ s.Size then none
      else load (store (store (store s.Elements i none) j none) j x) j) = x
    rw [if_neg hcj, load_store, length_store, length_store]
    exact if_pos ⟨rfl, hj0, by omega⟩
  have hati : s3.element_at i = none := by
    rw [e4]
    unfold element_at
    show (if i < 0 ∨ i ≥ s.Size then none
      else load (store (store (store s.Elements i none) j none) j x) i) = none
    have hn : ∀ l : Nat, ¬ (j = i ∧ 0 ≤ j ∧ j < (l : Int)) := fun l h => hij h.1.symm
    rw [if_neg hci, load_store, if_neg (hn _), load_store, if_neg (hn _), load_store]
    exact if_pos ⟨rfl, hi0, by omega⟩
  have hlen3 : s3.Elements.length = s3.Size.toNat := by
    rw [e4]
    show (store (store (store s.Elements i none) j none) j x).length = s.Size.toNat
    rw [length_store, length_store, length_store, hlen]
  have hh3 : s3.LastFreedSlot = -1 := by rw [e4]
  have hsz3 : s3.Size = s.Size := by rw [e4]
  obtain ⟨i0, k1, k2, k3, k4, k5, k6, k7, _⟩ := add_lowest_free s3 y hlen3 (by omega)
    ⟨i, hi0, by omega, hati⟩
  refine ⟨by rw [e3], hatj, hati, hh3, hsz3, i0, k1, ?_, k3, k4, k5, k6, k7⟩
  by_contra hgt
  exact k4 i hi0 (by omega) hati

/-- Witness for C16: on a full 4-slot array `remove(1)`, `remove(3)`, then `add(9)` lands in
slot 3 and slot 1 stays free. -/
theorem hint_is_lifo_witness :
    (((((run (new 4 4 : CIwGameSlotArray Nat)
        [.add (some 5), .add (some 6), .add (some 7), .add (some 8)]).remove_index 1).remove_index
          3).add (some 9)).2.element_at 3 = some 9) ∧
      (((((run (new 4 4 : CIwGameSlotArray Nat)
        [.add (some 5), .add (some 6), .add (some 7), .add (some 8)]).remove_index 1).remove_index
          3).add (some 9)).2.element_at 1 = none) :=
  ⟨(hint_is_lifo (run (new 4 4 : CIwGameSlotArray Nat)
      [.add (some 5), .add (some 6), .add (some 7), .add (some 8)]) (by decide) 1 3
      (by decide) (by decide) (by decide) (by decide) (by decide) (some 9) (some 4)).2.1,
    (hint_is_lifo (run (new 4 4 : CIwGameSlotArray Nat)
      [.add (some 5), .add (some 6), .add (some 7), .add (some 8)]) (by decide) 1 3
      (by decide) (by decide) (by decide) (by decide) (by decide) (some 9) (some 4)).2.2.1⟩

/-! Section: where `add` stores -/

/-- In a state that satisfies `Inv` and has a sound hint: when `add` stores, the index is inside
the block stored into, that block has as many slots as the capacity after the call, the slot
holds `NULL` before the store, and the block after the call is the result of that one store;
when `add` does not store, it returns `false` and changes nothing. -/
theorem add_store_spec (s : CIwGameSlotArray α) (hinv : Inv s) (hok : HintOk s) (x : Option α) :
    (add_store s = none → s.add x = (false, s)) ∧
      ∀ b k, add_store s = some (b, k) →
        0 ≤ k ∧ k < (b.length : Int) ∧ (b.length : Int) = (s.add x).2.Size ∧
          load b k = none ∧ s.element_at k = none ∧
          (s.add x).1 = true ∧ (s.add x).2.Elements = store b k x := by
  obtain ⟨h1, h2, h3, _⟩ := hinv
  by_cases hh : 0 ≤ s.LastFreedSlot
  · have hr : s.LastFreedSlot < s.Size ∧ load s.Elements s.LastFreedSlot = none := by
      rcases hok with h | h
      · omega
      · exact h.2
    have hs : add_store s = some (s.Elements, s.LastFreedSlot) := by
      unfold add_store
      rw [if_pos (by omega)]
    rw [hs, add_hint s x hh]
    refine ⟨fun h => Option.noConfusion h, fun b k hbk => ?_⟩
    injection hbk with hbk
    injection hbk with hb hk
    subst hb hk
    have hc : ¬ (s.LastFreedSlot < 0 ∨ s.LastFreedSlot ≥ s.Size) := by omega
    refine ⟨hh, by omega, by show (s.Elements.length : Int) = s.Size; omega, hr.2, ?_, rfl, rfl⟩
    unfold element_at
    rw [if_neg hc]
    exact hr.2
  · cases hsc : scan (fun t => decide (s.Elements.getD t none = none)) 0 s.Size.toNat with
    | some t =>
      obtain ⟨_, g2, g3, _⟩ := scan_some _ _ _ _ hsc
      have hfree : s.Elements.getD t none = none := by simpa using g3
      have hs : add_store s = some (s.Elements, (t : Int)) := by
        unfold add_store
        rw [if_neg (by omega), hsc]
      rw [hs, add_scan s x (by omega) t hsc]
      refine ⟨fun h => Option.noConfusion h, fun b k hbk => ?_⟩
      injection hbk with hbk
      injection hbk with hb hk
      subst hb hk
      refine ⟨by omega, by omega, by show (s.Elements.length : Int) = s.Size; omega, ?_, ?_,
        rfl, ?_⟩
      · rw [load_natCast]; exact hfree
      · rw [element_at_of_getD s t (by omega)]; exact hfree
      · show s.Elements.set t x = store s.Elements (t : Int) x
        unfold store
        rw [if_pos (by omega), Int.toNat_ofNat]
    | none =>
      by_cases hg : s.Growth = 0
      · have hs : add_store s = none := by
          unfold add_store
          rw [if_neg (by omega), hsc]
          simp only [hg, if_true]
        rw [hs]
        exact ⟨fun _ => add_full s x (by omega) hsc hg, fun b k h => Option.noConfusion h⟩
      · have hs : add_store s = some ((s.grow s.Growth).Elements, (s.Size.toNat : Int)) := by
          unfold add_store
          rw [if_neg (by omega), hsc]
          simp only [hg, if_false]
        rw [hs, add_grow s x (by omega) hsc hg]
        refine ⟨fun h => Option.noConfusion h, fun b k hbk => ?_⟩
        injection hbk with hbk
        injection hbk with hb hk
        subst hb hk
        have hlen := grow_length s s.Growth
        have hc : (s.Size.toNat : Int) < 0 ∨ (s.Size.toNat : Int) ≥ s.Size := by omega
        refine ⟨by omega, by omega, ?_, ?_, ?_, rfl, rfl⟩
        · show ((s.grow s.Growth).Elements.length : Int) = s.Size + s.Growth
          omega
        · rw [load_natCast, grow_getD s s.Growth h3, if_neg (by omega)]
        · unfold element_at
          rw [if_pos hc]

/-- C17: for `n >= 1` and a growth step `g` that is `0` or at least `2`, in every state reached
from `new(n, g)` by `add`, `remove(T)`, `remove(int)` and `clear`: whenever `add(x)` stores,
the index `k` of the store is inside `[0, capacity)` of the block it stores into (the capacity
after the call, so the out-of-range branch of the store is not taken), that slot held `NULL`
before the store and `element_at(k)` was `NULL` before the call, `add` returns `true` and the
block after the call is the outcome of that single store; when `add` does not store it returns
`false` and leaves the state as it was. -/
theorem add_store_in_range (n g : Nat) (hn : 1 ≤ n) (hg : g = 0 ∨ 2 ≤ g) (ops : List (Op α))
    (x : Option α) :
    (add_store (run (new (n : Int) (g : Int) : CIwGameSlotArray α) ops) = none →
        (run (new (n : Int) (g : Int) : CIwGameSlotArray α) ops).add x
          = (false, run (new (n : Int) (g : Int)) ops)) ∧
      ∀ b k, add_store (run (new (n : Int) (g : Int) : CIwGameSlotArray α) ops) = some (b, k) →
        0 ≤ k ∧ k < (b.length : Int) ∧
          (b.length : Int) = ((run (new (n : Int) (g : Int) : CIwGameSlotArray α) ops).add x).2.Size ∧
          load b k = none ∧
          (run (new (n : Int) (g : Int) : CIwGameSlotArray α) ops).element_at k = none ∧
          ((run (new (n : Int) (g : Int) : CIwGameSlotArray α) ops).add x).1 = true ∧
          ((run (new (n : Int) (g : Int) : CIwGameSlotArray α) ops).add x).2.Elements
            = store b k x :=
  add_store_spec _ (hintOk_run n g hn hg ops).1 (hintOk_run n g hn hg ops).2 x

/-- Witness for C17: `new(2, 2)` after two `add`s is full; the third `add` stores at index 2 of
the grown 4-slot block. -/
theorem add_store_in_range_witness :
    add_store (run (new ((2 : Nat) : Int) ((2 : Nat) : Int) : CIwGameSlotArray Nat)
        [.add (some 7), .add (some 8)]) = some ([some 7, some 8, none, none], 2) ∧
      ((run (new ((2 : Nat) : Int) ((2 : Nat) : Int) : CIwGameSlotArray Nat)
        [.add (some 7), .add (some 8)]).add (some 9)).2.Elements
        = store [some 7, some 8, none, none] 2 (some 9) :=
  ⟨by decide,
    ((add_store_in_range 2 2 (by decide) (by decide) [.add (some 7), .add (some 8)]
      (some 9)).2 [some 7, some 8, none, none] 2 (by decide)).2.2.2.2.2.2⟩

/-! Section: when `add` grows -/

/-- When every slot below the bound is occupied, the count is the bound. -/
theorem countLoop_all (es : List (Option α)) (n : Nat)
    (h : ∀ t, t < n → es.getD t none ≠ none) : countLoop es n = n := by
  induction n with
  | zero => simp [countLoop]
  | succ n ih =>
    rw [countLoop_succ, ih (fun t ht => h t (by omega)), if_pos (h n (by omega))]
    push_cast
    rfl

/-- C18: for a state with capacity `Size >= 0`, the capacity after `add(x)` is `Size` or
`Size + Growth`; when it is `Size + Growth` with `Growth > 0`, no hint was pending
(`LastFreedSlot < 0`) and every slot was occupied (`count() == Size`); so with a pending hint
or a free slot `add` does not grow the array. -/
theorem add_capacity (s : CIwGameSlotArray α) (x : Option α) (hsz : 0 ≤ s.Size) :
    ((s.add x).2.Size = s.Size ∨ (s.add x).2.Size = s.Size + s.Growth) ∧
      (0 < s.Growth → (s.add x).2.Size = s.Size + s.Growth →
        s.LastFreedSlot < 0 ∧ s.count = s.Size ∧
          ∀ i, 0 ≤ i → i < s.Size → s.element_at i ≠ none) ∧
      ((0 ≤ s.LastFreedSlot ∨ ∃ i, 0 ≤ i ∧ i < s.Size ∧ s.element_at i = none) →
        (s.add x).2.Size = s.Size) := by
  by_cases hh : 0 ≤ s.LastFreedSlot
  · rw [add_hint s x hh]
    refine ⟨Or.inl rfl, fun hg he => ?_, fun _ => rfl⟩
    have : s.Size = s.Size + s.Growth := he
    omega
  · cases hsc : scan (fun t => decide (s.Elements.getD t none = none)) 0 s.Size.toNat with
    | some t =>
      rw [add_scan s x (by omega) t hsc]
      refine ⟨Or.inl rfl, fun hg he => ?_, fun _ => rfl⟩
      have : s.Size = s.Size + s.Growth := he
      omega
    | none =>
      have hocc : ∀ t, t < s.Size.toNat → s.Elements.getD t none ≠ none := by
        intro t ht
        have := scan_none _ _ _ hsc t (Nat.zero_le _) (by omega)
        simpa using this
      have hall : ∀ i, 0 ≤ i → i < s.Size → s.element_at i ≠ none := by
        intro i hi0 hi1
        rw [← Int.toNat_of_nonneg hi0, element_at_of_getD s i.toNat (by omega)]
        exact hocc _ (by omega)
      have hcount : s.count = s.Size := by
        show countLoop s.Elements s.Size.toNat = s.Size
        rw [countLoop_all _ _ hocc]
        omega
      have hnofree : ¬ (0 ≤ s.LastFreedSlot ∨ ∃ i, 0 ≤ i ∧ i < s.Size ∧ s.element_at i = none) := by
        rintro (h | ⟨i, h1, h2, h3⟩)
        · exact hh h
        · exact hall i h1 h2 h3
      by_cases hg : s.Growth = 0
      · rw [add_full s x (by omega) hsc hg]
        exact ⟨Or.inl rfl, fun _ _ => ⟨by omega, hcount, hall⟩, fun h => absurd h hnofree⟩
      · rw [add_grow s x (by omega) hsc hg]
        exact ⟨Or.inr rfl, fun _ _ => ⟨by omega, hcount, hall⟩, fun h => absurd h hnofree⟩

/-- Witness for C18: a full 2-slot array with growth step 2 grows to 4; after `remove(int 0)`
the hint is pending and `add` keeps the capacity at 4. -/
theorem add_capacity_witness :
    (run (new 2 2 : CIwGameSlotArray Nat) [.add (some 7), .add (some 8)]).count
        = (run (new 2 2 : CIwGameSlotArray Nat) [.add (some 7), .add (some 8)]).Size ∧
      ((run (new 2 2 : CIwGameSlotArray Nat)
        [.add (some 7), .add (some 8), .add (some 9), .remove_index 0]).add (some 6)).2.Size
        = 4 :=
  ⟨((add_capacity (run (new 2 2 : CIwGameSlotArray Nat) [.add (some 7), .add (some 8)])
      (some 9) (by decide)).2.1 (by decide) (by decide)).2.1,
    ((add_capacity (run (new 2 2 : CIwGameSlotArray Nat)
      [.add (some 7), .add (some 8), .add (some 9), .remove_index 0]) (some 6)
      (by decide)).2.2 (Or.inl (by decide))).trans (by decide)⟩

/-- On a full array with no hint pending and a growth step of at least `2`: `add(x)` then `add(y)` leave capacity `Size + Growth`, `x` at index `Size`
and `y` at index `Size + 1`, reached through the hint that the first `add` set. -/
theorem add_twice_after_full (s : CIwGameSlotArray α) (hsz : 0 ≤ s.Size) (hhint : s.LastFreedSlot < 0) (hfull : s.count = s.Size)
    (hg : 2 ≤ s.Growth) (x y : Option α) :
    (s.add x).1 = true ∧ ((s.add x).2.add y).1 = true ∧
      (s.add x).2.LastFreedSlot = s.Size + 1 ∧
      ((s.add x).2.add y).2.Size = s.Size + s.Growth ∧
      ((s.add x).2.add y).2.element_at s.Size = x ∧
      ((s.add x).2.add y).2.element_at (s.Size + 1) = y := by
  have hcnt : countLoop s.Elements s.Size.toNat = (s.Size.toNat : Int) := by
    have : s.count = countLoop s.Elements s.Size.toNat := rfl
    omega
  have hocc := countLoop_full _ _ hcnt
  have hsc : scan (fun t => decide (s.Elements.getD t none = none)) 0 s.Size.toNat = none := by
    cases hs : scan (fun t => decide (s.Elements.getD t none = none)) 0 s.Size.toNat with
    | none => rfl
    | some t =>
      exfalso
      obtain ⟨_, ht, hp, _⟩ := scan_some _ _ _ _ hs
      exact hocc t (by omega) (by simpa using hp)
  have hcast : (s.Size.toNat : Int) = s.Size := Int.toNat_of_nonneg hsz
  have e1 : s.add x = (true, { s.grow s.Growth with
      Elements := store (s.grow s.Growth).Elements s.Size x
      LastFreedSlot := s.Size + 1 }) := by
    rw [add_grow s x hhint hsc (by omega), hcast]
  have hgl := grow_length s s.Growth
  rw [e1]
  have e2 := add_hint ({ s.grow s.Growth with
      Elements := store (s.grow s.Growth).Elements s.Size x
      LastFreedSlot := s.Size + 1 } : CIwGameSlotArray α) y
      (by show 0 ≤ s.Size + 1; omega)
  rw [e2]
  refine ⟨rfl, rfl, rfl, rfl, ?_, ?_⟩
  · unfold element_at
    show (if s.Size < 0 ∨ s.Size ≥ s.Size + s.Growth then none
      else load (store (store (s.grow s.Growth).Elements s.Size x) (s.Size + 1) y) s.Size) = x
    have hc : ¬ (s.Size < 0 ∨ s.Size ≥ s.Size + s.Growth) := by omega
    have hn : ¬ (s.Size + 1 = s.Size ∧ 0 ≤ s.Size + 1 ∧
        s.Size + 1 < ((store (s.grow s.Growth).Elements s.Size x).length : Int)) := by omega
    rw [if_neg hc, load_store, if_neg hn, load_store]
    exact if_pos ⟨rfl, hsz, by omega⟩
  · unfold element_at
    show (if s.Size + 1 < 0 ∨ s.Size + 1 ≥ s.Size + s.Growth then none
      else load (store (store (s.grow s.Growth).Elements s.Size x) (s.Size + 1) y)
        (s.Size + 1)) = y
    have hc : ¬ (s.Size + 1 < 0 ∨ s.Size + 1 ≥ s.Size + s.Growth) := by omega
    rw [if_neg hc, load_store, length_store]
    exact if_pos ⟨rfl, by omega, by omega⟩

/-- C14 at `new(1, 1)`, `add(7)`: the array is full (`count() == Size == 1`), no hint is
pending and the growth step is 1.  `add(8)` grows to capacity 2, stores `8` at index 1 and sets
`LastFreedSlot = 2`; `add(9)` then returns `true` after a store to `Elements[2]`, outside the
2-slot block, and `element_at(2)`, the index `c + 1`, is `NULL`, not `9`. -/
theorem add_twice_growth_one :
    (run (new 1 1 : CIwGameSlotArray Nat) [.add (some 7)]).count
        = (run (new 1 1 : CIwGameSlotArray Nat) [.add (some 7)]).Size ∧
      (run (new 1 1 : CIwGameSlotArray Nat) [.add (some 7)]).Size = 1 ∧
      (run (new 1 1 : CIwGameSlotArray Nat) [.add (some 7)]).LastFreedSlot = -1 ∧
      (run (new 1 1 : CIwGameSlotArray Nat) [.add (some 7)]).Growth = 1 ∧
      ((run (new 1 1 : CIwGameSlotArray Nat) [.add (some 7)]).add (some 8)).2.LastFreedSlot = 2 ∧
      ((run (new 1 1 : CIwGameSlotArray Nat) [.add (some 7)]).add (some 8)).2.Elements.length
        = 2 ∧
      (((run (new 1 1 : CIwGameSlotArray Nat) [.add (some 7)]).add (some 8)).2.add (some 9)).1
        = true ∧
      (((run (new 1 1 : CIwGameSlotArray Nat) [.add (some 7)]).add (some 8)).2.add
        (some 9)).2.Size = 2 ∧
      (((run (new 1 1 : CIwGameSlotArray Nat) [.add (some 7)]).add (some 8)).2.add
        (some 9)).2.element_at 1 = some 8 ∧
      (((run (new 1 1 : CIwGameSlotArray Nat) [.add (some 7)]).add (some 8)).2.add
        (some 9)).2.element_at 2 = none := by
  decide

/-! Section: `CIwGameTimer` -/

/-- A timer that is not started, or whose duration is 0, never times out, and polling it
changes nothing. -/
theorem hasTimedOut_idle (t : CIwGameTimer) (now now2 : Nat)
    (h : t.Started = false ∨ t.Duration = 0) : t.HasTimedOut now now2 = (false, t) := by
  unfold CIwGameTimer.HasTimedOut
  rcases h with h | h
  · rw [h]; rfl
  · cases hs : t.Started
    · rfl
    · simp [h]

/-- A call that does not reach `Start()` leaves a stopped timer stopped, and if the call is
`HasTimedOut` it returns `false`. -/
theorem timerStep_stopped (t : CIwGameTimer) (op : TimerOp) (ht : t.Started = false)
    (hop : op.callsStart = false) :
    (timerStep t op).2.Started = false ∧ ∀ b, (timerStep t op).1 = some b → b = false := by
  cases op with
  | HasTimedOut now now2 =>
    have h := hasTimedOut_idle t now now2 (Or.inl ht)
    refine ⟨?_, fun b hb => ?_⟩
    · show (t.HasTimedOut now now2).2.Started = false
      rw [h]; exact ht
    · have hb2 : some (t.HasTimedOut now now2).1 = some b := hb
      rw [h] at hb2
      injection hb2 with hb2
      exact hb2.symm
  | Start now => exact Bool.noConfusion hop
  | Stop => exact ⟨rfl, fun b hb => Option.noConfusion hb⟩
  | setDuration d start now =>
    have hst : start = false := hop
    subst hst
    exact ⟨ht, fun b hb => Option.noConfusion hb⟩
  | setAutoReset a => exact ⟨ht, fun b hb => Option.noConfusion hb⟩
  | Reset now => exact Bool.noConfusion hop

/-- A stopped timer stays stopped, and every `HasTimedOut` returns `false`, along any sequence
of calls none of which reaches `Start()`. -/
theorem timerRun_stopped (ops : List TimerOp) (t : CIwGameTimer) (ht : t.Started = false)
    (hops : ∀ op, op ∈ ops → op.callsStart = false) :
    (∀ b, b ∈ (timerRun t ops).1 → b = false) ∧ (timerRun t ops).2.Started = false := by
  induction ops generalizing t with
  | nil => exact ⟨fun b hb => by simp [timerRun] at hb, ht⟩
  | cons op ops ih =>
    obtain ⟨h1, h2⟩ := timerStep_stopped t op ht (hops op (List.mem_cons_self _ _))
    obtain ⟨k1, k2⟩ := ih (timerStep t op).2 h1 (fun o ho => hops o (List.mem_cons_of_mem _ ho))
    unfold timerRun
    cases hr : (timerStep t op).1 with
    | none => exact ⟨k1, k2⟩
    | some b0 =>
      refine ⟨fun b hb => ?_, k2⟩
      rcases List.mem_cons.mp hb with hb | hb
      · rw [hb]; exact h2 b0 hr
      · exact k1 b hb

/-- C19: for every timer state and all clock readings, `HasTimedOut` returns `false` and leaves
the timer (`Started`, `LastTime`, `Duration`, `AutoReset`) unchanged when the timer is not
started or its `Duration` is 0; and when `HasTimedOut` returns `true` on a timer with
`AutoReset` false, the timer is stopped afterwards, and along every later sequence of calls that
does not reach `Start()` every `HasTimedOut` returns `false` and the timer stays stopped. -/
theorem hasTimedOut_spec (t : CIwGameTimer) (now now2 : Nat) :
    ((t.Started = false ∨ t.Duration = 0) → t.HasTimedOut now now2 = (false, t)) ∧
      ((t.HasTimedOut now now2).1 = true → t.AutoReset = false →
        (t.HasTimedOut now now2).2.Started = false ∧
          ∀ ops : List TimerOp, (∀ op, op ∈ ops → op.callsStart = false) →
            (∀ b, b ∈ (timerRun (t.HasTimedOut now now2).2 ops).1 → b = false) ∧
              (timerRun (t.HasTimedOut now now2).2 ops).2.Started = false) := by
  refine ⟨hasTimedOut_idle t now now2, fun hres hauto => ?_⟩
  have hstop : (t.HasTimedOut now now2).2.Started = false := by
    by_cases hidle : t.Started = false ∨ t.Duration = 0
    · rw [hasTimedOut_idle t now now2 hidle] at hres
      exact Bool.noConfusion hres
    · have hs : t.Started = true := by
        cases h : t.Started
        · exact absurd (Or.inl h) hidle
        · rfl
      have hd : ¬ t.Duration = 0 := fun h => hidle (Or.inr h)
      by_cases hlt : t.GetElapsedTime now > t.Duration
      · have he : t.HasTimedOut now now2 = (true, { t with Started := false }) := by
          unfold CIwGameTimer.HasTimedOut
          simp only [hs, hd, hlt, hauto, Bool.not_true, Bool.false_eq_true, if_false, if_true]
        rw [he]
      · have he : t.HasTimedOut now now2 = (false, t) := by
          unfold CIwGameTimer.HasTimedOut
          simp only [hs, hd, hlt, Bool.not_true, Bool.false_eq_true, if_false]
        rw [he] at hres
        exact Bool.noConfusion hres
  exact ⟨hstop, fun ops hops => timerRun_stopped ops _ hstop hops⟩

/-- Witness for C19: a started 50 ms timer set at time 100 and polled at time 200 times out and
stops; later polls return `false`.  A timer of duration 0 polled at time 200 is unchanged. -/
theorem hasTimedOut_spec_witness :
    (timerRun ((⟨true, 100, 50, false⟩ : CIwGameTimer).HasTimedOut 200 200).2
        [.HasTimedOut 300 300, .setAutoReset true, .HasTimedOut 100000 100000]).2.Started
        = false ∧
      (⟨true, 100, 0, false⟩ : CIwGameTimer).HasTimedOut 200 200
        = (false, ⟨true, 100, 0, false⟩) :=
  ⟨(((hasTimedOut_spec ⟨true, 100, 50, false⟩ 200 200).2 (by decide) (by decide)).2
      [.HasTimedOut 300 300, .setAutoReset true, .HasTimedOut 100000 100000]
      (by decide)).2,
    (hasTimedOut_spec ⟨true, 100, 0, false⟩ 200 200).1 (Or.inr (by decide))⟩

end IwGame
